import Mathlib

/-!
Verification of the SWDSMS web-app persistence layer (server.js + supabase_setup.sql).

The development has two levels:

* a JSON file layer: `readJson` / `writeJson` from the source, over a model of
  `JSON.stringify(·, null, 2)` and `JSON.parse` restricted to the values the
  application stores (null, booleans, integer numerals, strings, arrays, objects);
* an operational layer: the five HTTP handlers (`/api/signup`, `/api/login`,
  `POST /api/reports`, `GET /api/reports`, `GET /api/users`) and the four
  `db*` Supabase adapters, embedded as explicit state-passing functions.

Machine integers do not occur; ids are natural numbers (`Date.now()` and
`bigserial` are integers in the source's range of use).
-/

namespace SWDSMS

/-- JSON values as the application stores them: numbers are restricted to
integers, which covers every value the program writes (`Date.now()` ids and
`bigserial` ids; all other fields are strings). -/
inductive Json where
  | null : Json
  | bool (b : Bool) : Json
  | num (n : Int) : Json
  | str (s : String) : Json
  | arr (items : List Json) : Json
  | obj (fields : List (String × Json)) : Json

/-- Opening brace character, kept out of string literals. -/
def lbrace : Char := Char.ofNat 123

/-- Closing brace character. -/
def rbrace : Char := Char.ofNat 125

/-- Lower-case hexadecimal digit, as `JSON.stringify` emits in unicode escapes. -/
def hexDigitChar (n : Nat) : Char :=
  if n < 10 then Char.ofNat (48 + n) else Char.ofNat (87 + n)

/-- Decimal digit character. -/
def digitChar (n : Nat) : Char := Char.ofNat (48 + n)

/-- One character of a JSON string body, escaped exactly as `JSON.stringify`
does: quote, backslash, the five short escapes, `\u00xx` for the remaining
control characters, and every other character verbatim. -/
def escapeChar (c : Char) : List Char :=
  if c = '"' then ['\\', '"']
  else if c = '\\' then ['\\', '\\']
  else if c = Char.ofNat 8 then ['\\', 'b']
  else if c = '\t' then ['\\', 't']
  else if c = '\n' then ['\\', 'n']
  else if c = Char.ofNat 12 then ['\\', 'f']
  else if c = '\r' then ['\\', 'r']
  else if c.toNat < 32 then
    ['\\', 'u', '0', '0', hexDigitChar (c.toNat / 16), hexDigitChar (c.toNat % 16)]
  else [c]

/-- Escape a whole string body. -/
def escapeChars : List Char → List Char
  | [] => []
  | c :: cs => escapeChar c ++ escapeChars cs

/-- Decimal digits of `n`, most significant first; the first argument is fuel
(any fuel above `n` yields the digits). -/
def natCharsAux : Nat → Nat → List Char
  | 0, _ => []
  | f + 1, n =>
    if n < 10 then [digitChar n]
    else natCharsAux f (n / 10) ++ [digitChar (n % 10)]

/-- Decimal numeral of a natural number. -/
def natChars (n : Nat) : List Char := natCharsAux (n + 1) n

/-- Decimal numeral of an integer, as Javascript prints integral numbers. -/
def intChars (i : Int) : List Char :=
  if i < 0 then '-' :: natChars i.natAbs else natChars i.natAbs

/-- Serialized JSON string: quoted, escaped body. -/
def strChars (s : String) : List Char := '"' :: (escapeChars s.data ++ ['"'])

/-- The newline-plus-indentation `JSON.stringify(·, null, 2)` inserts before an
element printed at nesting depth `d`. -/
def nlIndent (d : Nat) : List Char := '\n' :: List.replicate (2 * d) ' '

mutual

/-- Model of `JSON.stringify(v, null, 2)` at nesting depth `d`, producing the
character list of the output. -/
def stringifyV : Nat → Json → List Char
  | _, .null => ['n', 'u', 'l', 'l']
  | _, .bool true => ['t', 'r', 'u', 'e']
  | _, .bool false => ['f', 'a', 'l', 's', 'e']
  | _, .num n => intChars n
  | _, .str s => strChars s
  | _, .arr [] => ['[', ']']
  | d, .arr (v :: vs) =>
    '[' :: (nlIndent (d + 1) ++ stringifyItems (d + 1) (v :: vs) ++ nlIndent d ++ [']'])
  | _, .obj [] => [lbrace, rbrace]
  | d, .obj (kv :: kvs) =>
    lbrace :: (nlIndent (d + 1) ++ stringifyFields (d + 1) (kv :: kvs) ++ nlIndent d ++ [rbrace])

/-- Comma-and-newline separated array elements. -/
def stringifyItems : Nat → List Json → List Char
  | _, [] => []
  | d, [v] => stringifyV d v
  | d, v :: w :: vs => stringifyV d v ++ ',' :: (nlIndent d ++ stringifyItems d (w :: vs))

/-- Comma-and-newline separated object fields, each `"key": value`. -/
def stringifyFields : Nat → List (String × Json) → List Char
  | _, [] => []
  | d, [(k, v)] => strChars k ++ ':' :: ' ' :: stringifyV d v
  | d, (k, v) :: kv :: kvs =>
    strChars k ++ ':' :: ' ' :: stringifyV d v ++ ',' :: (nlIndent d ++ stringifyFields d (kv :: kvs))

end

/-- Model of `JSON.stringify(v, null, 2)` as a string. -/
def stringify (v : Json) : String := String.mk (stringifyV 0 v)

example : stringify (Json.arr [Json.num 1, Json.num 23]) =
    String.mk ('[' :: '\n' :: ' ' :: ' ' :: '1' :: ',' :: '\n' :: ' ' :: ' ' :: '2' :: '3' ::
      '\n' :: ']' :: []) := rfl

example : stringifyV 0 (Json.obj [("a", Json.str "x")]) =
    lbrace :: '\n' :: ' ' :: ' ' :: '"' :: 'a' :: '"' :: ':' :: ' ' :: '"' :: 'x' :: '"' ::
      '\n' :: rbrace :: [] := rfl

/-- JSON whitespace characters. -/
def isWsChar (c : Char) : Bool := c = ' ' || c = '\n' || c = '\t' || c = '\r'

/-- Skip leading whitespace, as `JSON.parse` does between tokens. -/
def skipWs : List Char → List Char
  | [] => []
  | c :: cs => if isWsChar c then skipWs cs else c :: cs

/-- Decimal digit test. -/
def isDigitChar (c : Char) : Bool := 48 ≤ c.toNat && c.toNat ≤ 57

/-- Value of a hexadecimal digit (both cases accepted, as in `JSON.parse`). -/
def hexVal (c : Char) : Option Nat :=
  if 48 ≤ c.toNat ∧ c.toNat ≤ 57 then some (c.toNat - 48)
  else if 97 ≤ c.toNat ∧ c.toNat ≤ 102 then some (c.toNat - 87)
  else if 65 ≤ c.toNat ∧ c.toNat ≤ 70 then some (c.toNat - 55)
  else none

/-- Consume a run of decimal digits, accumulating their value. -/
def parseDigitsAux : List Char → Nat → Nat × List Char
  | [], acc => (acc, [])
  | c :: cs, acc =>
    if isDigitChar c then parseDigitsAux cs (acc * 10 + (c.toNat - 48))
    else (acc, c :: cs)

/-- Parse a nonempty run of decimal digits. -/
def parseNat : List Char → Option (Nat × List Char)
  | [] => none
  | c :: cs => if isDigitChar c then some (parseDigitsAux (c :: cs) 0) else none

/-- Parse the body of a JSON string after the opening quote, undoing the
escapes of `escapeChar`; raw control characters are refused, as in
`JSON.parse`. The fuel (first argument) bounds the number of decoded
characters; callers pass the input length, which always suffices. -/
def parseStrBody : Nat → List Char → Option (List Char × List Char)
  | 0, _ => none
  | f + 1, cs =>
    match cs with
    | [] => none
    | c :: cs1 =>
      if c = '"' then some ([], cs1)
      else if c = '\\' then
        match cs1 with
        | [] => none
        | e :: cs' =>
          if e = '"' then (parseStrBody f cs').map fun p => ('"' :: p.1, p.2)
          else if e = '\\' then (parseStrBody f cs').map fun p => ('\\' :: p.1, p.2)
          else if e = '/' then (parseStrBody f cs').map fun p => ('/' :: p.1, p.2)
          else if e = 'b' then (parseStrBody f cs').map fun p => (Char.ofNat 8 :: p.1, p.2)
          else if e = 't' then (parseStrBody f cs').map fun p => ('\t' :: p.1, p.2)
          else if e = 'n' then (parseStrBody f cs').map fun p => ('\n' :: p.1, p.2)
          else if e = 'f' then (parseStrBody f cs').map fun p => (Char.ofNat 12 :: p.1, p.2)
          else if e = 'r' then (parseStrBody f cs').map fun p => ('\r' :: p.1, p.2)
          else if e = 'u' then
            match cs' with
            | h1 :: h2 :: h3 :: h4 :: cs'' =>
              match hexVal h1, hexVal h2, hexVal h3, hexVal h4 with
              | some v1, some v2, some v3, some v4 =>
                (parseStrBody f cs'').map fun p =>
                  (Char.ofNat (((v1 * 16 + v2) * 16 + v3) * 16 + v4) :: p.1, p.2)
              | _, _, _, _ => none
            | _ => none
          else none
      else if c.toNat < 32 then none
      else (parseStrBody f cs1).map fun p => (c :: p.1, p.2)

/-- Parse the elements of a nonempty array, the element parser being supplied;
the fuel bounds the number of elements. -/
def parseItemsWith (pv : List Char → Option (Json × List Char)) :
    Nat → List Char → Option (List Json × List Char)
  | 0, _ => none
  | f + 1, cs =>
    match pv cs with
    | none => none
    | some (v, cs1) =>
      match skipWs cs1 with
      | [] => none
      | c :: cs2 =>
        if c = ',' then
          match parseItemsWith pv f cs2 with
          | none => none
          | some (vs, cs3) => some (v :: vs, cs3)
        else if c = ']' then some ([v], cs2)
        else none

/-- Parse the fields of a nonempty object, the value parser being supplied. -/
def parseFieldsWith (pv : List Char → Option (Json × List Char)) :
    Nat → List Char → Option (List (String × Json) × List Char)
  | 0, _ => none
  | f + 1, cs =>
    match skipWs cs with
    | [] => none
    | c0 :: cs0 =>
      if c0 = '"' then
        match parseStrBody (cs0.length + 1) cs0 with
        | none => none
        | some (k, cs1) =>
          match skipWs cs1 with
          | [] => none
          | c1 :: cs2 =>
            if c1 = ':' then
              match pv cs2 with
              | none => none
              | some (v, cs3) =>
                match skipWs cs3 with
                | [] => none
                | c2 :: cs4 =>
                  if c2 = ',' then
                    match parseFieldsWith pv f cs4 with
                    | none => none
                    | some (kvs, cs5) => some ((String.mk k, v) :: kvs, cs5)
                  else if c2 = rbrace then some ([(String.mk k, v)], cs4)
                  else none
            else none
      else none

/-- Parse one JSON value (the fragment of `JSON.parse` covering the values the
application writes); the fuel bounds the nesting. -/
def parseValue : Nat → List Char → Option (Json × List Char)
  | 0, _ => none
  | f + 1, cs0 =>
    match skipWs cs0 with
    | [] => none
    | c :: cs =>
      if c = 'n' then
        match cs with
        | 'u' :: 'l' :: 'l' :: rest => some (.null, rest)
        | _ => none
      else if c = 't' then
        match cs with
        | 'r' :: 'u' :: 'e' :: rest => some (.bool true, rest)
        | _ => none
      else if c = 'f' then
        match cs with
        | 'a' :: 'l' :: 's' :: 'e' :: rest => some (.bool false, rest)
        | _ => none
      else if c = '"' then (parseStrBody (cs.length + 1) cs).map fun p => (.str (String.mk p.1), p.2)
      else if c = '[' then
        match skipWs cs with
        | [] => none
        | c1 :: cs1 =>
          if c1 = ']' then some (.arr [], cs1)
          else (parseItemsWith (parseValue f) f (c1 :: cs1)).map fun p => (.arr p.1, p.2)
      else if c = lbrace then
        match skipWs cs with
        | [] => none
        | c1 :: cs1 =>
          if c1 = rbrace then some (.obj [], cs1)
          else (parseFieldsWith (parseValue f) f (c1 :: cs1)).map fun p => (.obj p.1, p.2)
      else if c = '-' then
        match parseNat cs with
        | some (n, rest) => some (.num (-(n : Int)), rest)
        | none => none
      else if isDigitChar c then
        match parseNat (c :: cs) with
        | some (n, rest) => some (.num (n : Int), rest)
        | none => none
      else none

/-- Model of `JSON.parse`: parse a complete value, allowing surrounding
whitespace and refusing trailing text. -/
def parseJson (s : String) : Option Json :=
  match parseValue (s.data.length + 1) s.data with
  | some (v, rest) => if skipWs rest = [] then some v else none
  | none => none

example : parseJson (String.mk ('[' :: '\n' :: ' ' :: ' ' :: '1' :: ',' :: '\n' :: ' ' :: ' ' ::
    '2' :: '3' :: '\n' :: ']' :: [])) = some (Json.arr [Json.num 1, Json.num 23]) := rfl

example : parseJson "nope" = none := rfl

example : parseJson (stringify (Json.obj [("a", Json.str "x y"), ("b", Json.num (-7))])) =
    some (Json.obj [("a", Json.str "x y"), ("b", Json.num (-7))]) := rfl

/-- Code points below the surrogate range survive `Char.ofNat`. -/
theorem char_toNat_ofNat (n : Nat) (h : n < 55296) : (Char.ofNat n).toNat = n := by
  have hv : n.isValidChar := Or.inl h
  rw [Char.ofNat, dif_pos hv]
  rfl

/-- Two characters with the same code point are equal. -/
theorem char_toNat_inj {a b : Char} (h : a.toNat = b.toNat) : a = b := by
  have ha := Char.ofNat_toNat a
  rw [h, Char.ofNat_toNat] at ha
  exact ha.symm

theorem digitChar_toNat (k : Nat) (h : k < 10) : (digitChar k).toNat = 48 + k :=
  char_toNat_ofNat (48 + k) (by omega)

theorem isDigitChar_digitChar (k : Nat) (h : k < 10) : isDigitChar (digitChar k) = true := by
  simp [isDigitChar, digitChar_toNat k h]
  omega

theorem digitChar_ne (k : Nat) (h : k < 10) (c : Char) (hc : c.toNat < 48 ∨ 57 < c.toNat) :
    digitChar k ≠ c := by
  intro he
  have := digitChar_toNat k h
  rw [he] at this
  omega

theorem isWsChar_digitChar (k : Nat) (h : k < 10) : isWsChar (digitChar k) = false := by
  have h1 : digitChar k ≠ ' ' := digitChar_ne k h ' ' (by left; decide)
  have h2 : digitChar k ≠ '\n' := digitChar_ne k h '\n' (by left; decide)
  have h3 : digitChar k ≠ '\t' := digitChar_ne k h '\t' (by left; decide)
  have h4 : digitChar k ≠ '\r' := digitChar_ne k h '\r' (by left; decide)
  simp [isWsChar, h1, h2, h3, h4]

/-- Every character of this list is JSON whitespace. -/
def AllWs (l : List Char) : Prop := ∀ c, c ∈ l → isWsChar c = true

theorem allWs_nil : AllWs [] := by intro c hc; cases hc

theorem allWs_nlIndent (d : Nat) : AllWs (nlIndent d) := by
  intro c hc
  simp only [nlIndent, List.mem_cons, List.mem_replicate] at hc
  rcases hc with h | h
  · rw [h]; rfl
  · rw [h.2]; rfl

theorem skipWs_cons_of_not_ws {c : Char} (h : isWsChar c = false) (l : List Char) :
    skipWs (c :: l) = c :: l := by
  simp [skipWs, h]

theorem skipWs_append_of_allWs {l : List Char} (h : AllWs l) (r : List Char) :
    skipWs (l ++ r) = skipWs r := by
  induction l with
  | nil => rfl
  | cons c t ih =>
    have hc : isWsChar c = true := h c (List.mem_cons_self c t)
    have ht : AllWs t := fun x hx => h x (List.mem_cons_of_mem c hx)
    simp [skipWs, hc, ih ht]

/-- Input on which a digit run stops: empty, or headed by a non-digit. -/
def RestOk (l : List Char) : Prop := ∀ c t, l = c :: t → isDigitChar c = false

theorem restOk_nil : RestOk [] := by intro c t h; cases h

theorem restOk_cons {c : Char} (h : isDigitChar c = false) (t : List Char) : RestOk (c :: t) := by
  intro c' t' he
  cases he
  exact h

theorem parseDigitsAux_restOk {rest : List Char} (h : RestOk rest) (acc : Nat) :
    parseDigitsAux rest acc = (acc, rest) := by
  cases rest with
  | nil => rfl
  | cons c t => simp [parseDigitsAux, h c t rfl]

theorem natCharsAux_irrel : ∀ f g n, n < f → n < g → natCharsAux f n = natCharsAux g n := by
  intro f
  induction f with
  | zero => intro g n h; omega
  | succ f ih =>
    intro g n hf hg
    cases g with
    | zero => omega
    | succ g =>
      by_cases h10 : n < 10
      · simp [natCharsAux, h10]
      · have hn : 0 < n := by omega
        have hdiv : n / 10 < n := Nat.div_lt_self hn (by omega)
        simp only [natCharsAux, h10, if_false]
        rw [ih g (n / 10) (by omega) (by omega)]

theorem natChars_eq (n : Nat) :
    natChars n = if n < 10 then [digitChar n] else natChars (n / 10) ++ [digitChar (n % 10)] := by
  by_cases h10 : n < 10
  · rw [if_pos h10, natChars, natCharsAux, if_pos h10]
  · have hn : 0 < n := by omega
    have hdiv : n / 10 < n := Nat.div_lt_self hn (by omega)
    have hirr := natCharsAux_irrel n (n / 10 + 1) (n / 10) (by omega) (by omega)
    rw [if_neg h10, natChars, natCharsAux, if_neg h10, hirr]
    rfl

theorem natChars_head (n : Nat) : ∃ k t, natChars n = digitChar k :: t ∧ k < 10 := by
  induction n using Nat.strong_induction_on with
  | _ n ih =>
    rw [natChars_eq]
    by_cases h10 : n < 10
    · exact ⟨n, [], by simp [h10], h10⟩
    · have hn : 0 < n := by omega
      have hdiv : n / 10 < n := Nat.div_lt_self hn (by omega)
      obtain ⟨k, t, ht, hk⟩ := ih (n / 10) hdiv
      exact ⟨k, t ++ [digitChar (n % 10)], by simp [h10, ht], hk⟩

theorem parseDigitsAux_natChars :
    ∀ n acc rest, parseDigitsAux (natChars n ++ rest) acc =
      parseDigitsAux rest (acc * 10 ^ (natChars n).length + n) := by
  intro n
  induction n using Nat.strong_induction_on with
  | _ n ih =>
    intro acc rest
    by_cases h10 : n < 10
    · rw [natChars_eq, if_pos h10]
      simp only [List.cons_append, List.nil_append, List.length_cons, List.length_nil]
      rw [parseDigitsAux]
      simp [isDigitChar_digitChar n h10, digitChar_toNat n h10]
    · have hn : 0 < n := by omega
      have hdiv : n / 10 < n := Nat.div_lt_self hn (by omega)
      rw [natChars_eq, if_neg h10]
      rw [List.append_assoc, List.cons_append, List.nil_append]
      rw [ih (n / 10) hdiv]
      rw [parseDigitsAux]
      rw [if_pos (isDigitChar_digitChar (n % 10) (by omega))]
      rw [digitChar_toNat (n % 10) (by omega)]
      have hmod := Nat.div_add_mod n 10
      simp only [List.length_append, List.length_cons, List.length_nil]
      congr 1
      rw [Nat.pow_succ, ← Nat.mul_assoc]
      generalize acc * 10 ^ (natChars (n / 10)).length = P
      omega

theorem parseNat_natChars (n : Nat) (rest : List Char) (h : RestOk rest) :
    parseNat (natChars n ++ rest) = some (n, rest) := by
  obtain ⟨k, t, ht, hk⟩ := natChars_head n
  rw [ht, List.cons_append, parseNat]
  rw [if_pos (isDigitChar_digitChar k hk)]
  rw [← List.cons_append, ← ht]
  rw [parseDigitsAux_natChars n 0 rest]
  simp [parseDigitsAux_restOk h]

theorem hexDigitChar_toNat (k : Nat) (h : k < 16) :
    (hexDigitChar k).toNat = if k < 10 then 48 + k else 87 + k := by
  by_cases h10 : k < 10
  · rw [if_pos h10, hexDigitChar, if_pos h10]
    exact char_toNat_ofNat _ (by omega)
  · rw [if_neg h10, hexDigitChar, if_neg h10]
    exact char_toNat_ofNat _ (by omega)

theorem hexVal_hexDigitChar (k : Nat) (h : k < 16) : hexVal (hexDigitChar k) = some k := by
  have ht := hexDigitChar_toNat k h
  by_cases h10 : k < 10
  · rw [if_pos h10] at ht
    rw [hexVal, if_pos (by omega : 48 ≤ (hexDigitChar k).toNat ∧ (hexDigitChar k).toNat ≤ 57)]
    congr 1
    omega
  · rw [if_neg h10] at ht
    rw [hexVal, if_neg (by omega : ¬(48 ≤ (hexDigitChar k).toNat ∧ (hexDigitChar k).toNat ≤ 57)),
      if_pos (by omega : 97 ≤ (hexDigitChar k).toNat ∧ (hexDigitChar k).toNat ≤ 102)]
    congr 1
    omega

theorem parseStrBody_escapeChars :
    ∀ (l : List Char) (f : Nat) (rest : List Char), l.length + 1 ≤ f →
      parseStrBody f (escapeChars l ++ '"' :: rest) = some (l, rest) := by
  intro l
  induction l with
  | nil =>
    intro f rest hf
    match f, hf with
    | f' + 1, _ => rfl
  | cons c t ih =>
    intro f rest hf
    match f, hf with
    | f' + 1, hf' =>
      have hrec := ih f' rest (by simp at hf'; omega)
      show parseStrBody (f' + 1) ((escapeChar c ++ escapeChars t) ++ '"' :: rest) = _
      rw [List.append_assoc]
      by_cases h1 : c = '"'
      · subst h1
        show (parseStrBody f' (escapeChars t ++ '"' :: rest)).map _ = _
        rw [hrec]
        rfl
      by_cases h2 : c = '\\'
      · subst h2
        show (parseStrBody f' (escapeChars t ++ '"' :: rest)).map _ = _
        rw [hrec]
        rfl
      by_cases h3 : c = Char.ofNat 8
      · subst h3
        show (parseStrBody f' (escapeChars t ++ '"' :: rest)).map _ = _
        rw [hrec]
        rfl
      by_cases h4 : c = '\t'
      · subst h4
        show (parseStrBody f' (escapeChars t ++ '"' :: rest)).map _ = _
        rw [hrec]
        rfl
      by_cases h5 : c = '\n'
      · subst h5
        show (parseStrBody f' (escapeChars t ++ '"' :: rest)).map _ = _
        rw [hrec]
        rfl
      by_cases h6 : c = Char.ofNat 12
      · subst h6
        show (parseStrBody f' (escapeChars t ++ '"' :: rest)).map _ = _
        rw [hrec]
        rfl
      by_cases h7 : c = '\r'
      · subst h7
        show (parseStrBody f' (escapeChars t ++ '"' :: rest)).map _ = _
        rw [hrec]
        rfl
      by_cases h8 : c.toNat < 32
      · have hv1 : hexVal (hexDigitChar (c.toNat / 16)) = some (c.toNat / 16) :=
          hexVal_hexDigitChar _ (by omega)
        have hv2 : hexVal (hexDigitChar (c.toNat % 16)) = some (c.toNat % 16) :=
          hexVal_hexDigitChar _ (by omega)
        have hc : Char.ofNat (c.toNat / 16 * 16 + c.toNat % 16) = c := by
          have he : c.toNat / 16 * 16 + c.toNat % 16 = c.toNat := by omega
          rw [he, Char.ofNat_toNat]
        have hv0 : hexVal '0' = some 0 := rfl
        simp only [escapeChar, if_neg h1, if_neg h2, if_neg h3, if_neg h4, if_neg h5, if_neg h6,
          if_neg h7, if_pos h8, List.cons_append, List.nil_append]
        rw [parseStrBody]
        simp [hv0, hv1, hv2, hrec, hc]
      · simp only [escapeChar, if_neg h1, if_neg h2, if_neg h3, if_neg h4, if_neg h5, if_neg h6,
          if_neg h7, if_neg h8, List.cons_append, List.nil_append]
        rw [parseStrBody.eq_def]
        simp only [if_neg h1, if_neg h2, if_neg h8, hrec, Option.map_some]
        rfl

mutual

/-- Fuel sufficient for `parseValue` to read back a serialized value. -/
def fuelV : Json → Nat
  | .null => 1
  | .bool _ => 1
  | .num _ => 1
  | .str _ => 1
  | .arr vs => 1 + fuelItems vs
  | .obj kvs => 1 + fuelFields kvs

/-- Fuel sufficient for `parseItemsWith` over these elements. -/
def fuelItems : List Json → Nat
  | [] => 1
  | v :: vs => 1 + fuelV v + fuelItems vs

/-- Fuel sufficient for `parseFieldsWith` over these fields. -/
def fuelFields : List (String × Json) → Nat
  | [] => 1
  | (_, v) :: kvs => 1 + fuelV v + fuelFields kvs

end

theorem fuelV_pos (v : Json) : 1 ≤ fuelV v := by
  cases v <;> simp [fuelV]

theorem fuelItems_pos (vs : List Json) : 1 ≤ fuelItems vs := by
  cases vs with
  | nil => simp [fuelItems]
  | cons v t => simp only [fuelItems]; omega

theorem fuelFields_pos (kvs : List (String × Json)) : 1 ≤ fuelFields kvs := by
  cases kvs with
  | nil => simp [fuelFields]
  | cons kv t => obtain ⟨k, v⟩ := kv; simp only [fuelFields]; omega

theorem fuelV_lt_fuelItems {v : Json} {vs : List Json} (h : v ∈ vs) :
    fuelV v < fuelItems vs := by
  induction vs with
  | nil => cases h
  | cons w t ih =>
    rcases List.mem_cons.mp h with he | ht
    · subst he
      have := fuelItems_pos t
      simp [fuelItems]
      omega
    · have := ih ht
      have := fuelV_pos w
      simp [fuelItems]
      omega

theorem length_lt_fuelItems (vs : List Json) : vs.length < fuelItems vs := by
  induction vs with
  | nil => simp [fuelItems]
  | cons w t ih =>
    have := fuelV_pos w
    simp [fuelItems]
    omega

theorem fuelV_lt_fuelFields {kv : String × Json} {kvs : List (String × Json)} (h : kv ∈ kvs) :
    fuelV kv.2 < fuelFields kvs := by
  induction kvs with
  | nil => cases h
  | cons w t ih =>
    obtain ⟨wk, wv⟩ := w
    rcases List.mem_cons.mp h with he | ht
    · subst he
      have := fuelFields_pos t
      simp [fuelFields]
      omega
    · have := ih ht
      have := fuelV_pos wv
      simp [fuelFields]
      omega

theorem length_lt_fuelFields (kvs : List (String × Json)) : kvs.length < fuelFields kvs := by
  induction kvs with
  | nil => simp [fuelFields]
  | cons w t ih =>
    obtain ⟨wk, wv⟩ := w
    have := fuelV_pos wv
    simp [fuelFields]
    omega

theorem isDigitChar_of_ws {c : Char} (h : isWsChar c = true) : isDigitChar c = false := by
  simp only [isWsChar, Bool.or_eq_true, decide_eq_true_eq] at h
  rcases h with ⟨⟨h | h⟩ | h⟩ | h <;> (subst h; decide)

theorem restOk_allWs_append {ws X : List Char} (hws : AllWs ws) (hX : RestOk X) :
    RestOk (ws ++ X) := by
  cases ws with
  | nil => simpa using hX
  | cons c t =>
    exact restOk_cons (isDigitChar_of_ws (hws c (List.mem_cons_self c t))) _

theorem escapeChar_length_pos (c : Char) : 1 ≤ (escapeChar c).length := by
  rw [escapeChar]
  split_ifs <;> simp

theorem escapeChars_length_ge (l : List Char) : l.length ≤ (escapeChars l).length := by
  induction l with
  | nil => simp [escapeChars]
  | cons c t ih =>
    have := escapeChar_length_pos c
    simp only [escapeChars, List.length_append, List.length_cons]
    omega

theorem parseValue_skipWs (f : Nat) {ws : List Char} (hws : AllWs ws) (cs : List Char) :
    parseValue f (ws ++ cs) = parseValue f cs := by
  cases f with
  | zero => rfl
  | succ f =>
    conv_lhs => rw [parseValue]
    conv_rhs => rw [parseValue]
    rw [skipWs_append_of_allWs hws]

theorem stringifyV_head (d : Nat) (v : Json) :
    ∃ c t, stringifyV d v = c :: t ∧ isWsChar c = false ∧ c ≠ ']' := by
  cases v with
  | null => exact ⟨'n', _, rfl, by decide, by decide⟩
  | bool b =>
    cases b
    · exact ⟨'f', _, rfl, by decide, by decide⟩
    · exact ⟨'t', _, rfl, by decide, by decide⟩
  | num n =>
    by_cases hneg : n < 0
    · refine ⟨'-', natChars n.natAbs, ?_, by decide, by decide⟩
      simp [stringifyV, intChars, hneg]
    · obtain ⟨k, t, ht, hk⟩ := natChars_head n.natAbs
      refine ⟨digitChar k, t, ?_, isWsChar_digitChar k hk, digitChar_ne k hk ']' (by right; decide)⟩
      simp [stringifyV, intChars, hneg, ht]
  | str s => exact ⟨'"', _, rfl, by decide, by decide⟩
  | arr vs =>
    cases vs with
    | nil => exact ⟨'[', _, rfl, by decide, by decide⟩
    | cons v t => exact ⟨'[', _, rfl, by decide, by decide⟩
  | obj kvs =>
    cases kvs with
    | nil => exact ⟨lbrace, _, rfl, by decide, by decide⟩
    | cons kv t => exact ⟨lbrace, _, rfl, by decide, by decide⟩

theorem stringifyItems_head (d : Nat) (v : Json) (vs : List Json) :
    ∃ c t, stringifyItems d (v :: vs) = c :: t ∧ isWsChar c = false ∧ c ≠ ']' := by
  obtain ⟨c, t, ht, hw, hne⟩ := stringifyV_head d v
  cases vs with
  | nil => exact ⟨c, t, by simp [stringifyItems, ht], hw, hne⟩
  | cons w ws =>
    refine ⟨c, t ++ ',' :: (nlIndent d ++ stringifyItems d (w :: ws)), ?_, hw, hne⟩
    simp [stringifyItems, ht]

theorem restOk_ws_cons {ws : List Char} (hws : AllWs ws) (c : Char) (hc : isDigitChar c = false)
    (rest : List Char) : RestOk (ws ++ c :: rest) :=
  restOk_allWs_append hws (restOk_cons hc rest)

theorem stringifyFields_head (d : Nat) (kv : String × Json) (kvs : List (String × Json)) :
    ∃ t, stringifyFields d (kv :: kvs) = '"' :: t := by
  obtain ⟨k, v⟩ := kv
  cases kvs with
  | nil =>
    exact ⟨escapeChars k.data ++ '"' :: ':' :: ' ' :: stringifyV d v,
      by simp [stringifyFields, strChars]⟩
  | cons kv' t =>
    exact ⟨escapeChars k.data ++ '"' :: ':' :: ' ' ::
      (stringifyV d v ++ ',' :: (nlIndent d ++ stringifyFields d (kv' :: t))),
      by simp [stringifyFields, strChars]⟩

/-- Completeness of the `JSON.parse` model against the `JSON.stringify` model:
with enough fuel, a serialized value followed by any non-digit-headed rest
parses back to itself, and likewise for the element and field lists. -/
theorem parse_stringify : ∀ f : Nat,
    (∀ (d : Nat) (v : Json) (rest : List Char), fuelV v ≤ f → RestOk rest →
      parseValue f (stringifyV d v ++ rest) = some (v, rest)) ∧
    (∀ (vs : List Json) (fI d : Nat) (ws0 ws rest : List Char), vs ≠ [] →
      vs.length ≤ fI → (∀ v, v ∈ vs → fuelV v ≤ f) → AllWs ws0 → AllWs ws →
      parseItemsWith (parseValue f) fI (ws0 ++ (stringifyItems d vs ++ (ws ++ ']' :: rest))) =
        some (vs, rest)) ∧
    (∀ (kvs : List (String × Json)) (fF d : Nat) (ws0 ws rest : List Char), kvs ≠ [] →
      kvs.length ≤ fF → (∀ kv, kv ∈ kvs → fuelV kv.2 ≤ f) → AllWs ws0 → AllWs ws →
      parseFieldsWith (parseValue f) fF
          (ws0 ++ (stringifyFields d kvs ++ (ws ++ rbrace :: rest))) =
        some (kvs, rest)) := by
  intro f
  induction f with
  | zero =>
    refine ⟨?_, ?_, ?_⟩
    · intro d v rest hfuel _
      have := fuelV_pos v
      omega
    · intro vs fI d ws0 ws rest hne hlen hmem _ _
      cases vs with
      | nil => exact absurd rfl hne
      | cons v t =>
        have h1 := hmem v (List.mem_cons_self v t)
        have h2 := fuelV_pos v
        omega
    · intro kvs fF d ws0 ws rest hne hlen hmem _ _
      cases kvs with
      | nil => exact absurd rfl hne
      | cons kv t =>
        have h1 := hmem kv (List.mem_cons_self kv t)
        have h2 := fuelV_pos kv.2
        omega
  | succ f ih =>
    obtain ⟨ihV, ihItems, ihFields⟩ := ih
    have hval : ∀ (d : Nat) (v : Json) (rest : List Char), fuelV v ≤ f + 1 → RestOk rest →
        parseValue (f + 1) (stringifyV d v ++ rest) = some (v, rest) := by
      intro d v rest hfuel hrest
      cases v with
      | null => rfl
      | bool b => cases b <;> rfl
      | num n =>
        simp only [stringifyV]
        by_cases hneg : n < 0
        · rw [intChars, if_pos hneg, List.cons_append, parseValue,
            @skipWs_cons_of_not_ws '-' (by decide)]
          have hpn := parseNat_natChars n.natAbs rest hrest
          simp [hpn, show ('-' : Char) ≠ lbrace by decide, abs_of_neg hneg]
        · rw [intChars, if_neg hneg]
          obtain ⟨k, t, ht, hk⟩ := natChars_head n.natAbs
          have hd1 : digitChar k ≠ 'n' := digitChar_ne k hk 'n' (by right; decide)
          have hd2 : digitChar k ≠ 't' := digitChar_ne k hk 't' (by right; decide)
          have hd3 : digitChar k ≠ 'f' := digitChar_ne k hk 'f' (by right; decide)
          have hd4 : digitChar k ≠ '"' := digitChar_ne k hk '"' (by left; decide)
          have hd5 : digitChar k ≠ '[' := digitChar_ne k hk '[' (by right; decide)
          have hd6 : digitChar k ≠ lbrace := digitChar_ne k hk lbrace (by right; decide)
          have hd7 : digitChar k ≠ '-' := digitChar_ne k hk '-' (by left; decide)
          have hdig := isDigitChar_digitChar k hk
          have hws := isWsChar_digitChar k hk
          have hpn := parseNat_natChars n.natAbs rest hrest
          have hcast : ((n.natAbs : Int)) = n := Int.natAbs_of_nonneg (by omega)
          have hpn' : parseNat (digitChar k :: (t ++ rest)) = some (n.natAbs, rest) := by
            rw [← List.cons_append, ← ht]
            exact hpn
          rw [ht, List.cons_append, parseValue, skipWs_cons_of_not_ws hws]
          simp [hd1, hd2, hd3, hd4, hd5, hd6, hd7, hdig, hpn', hcast]
      | str s =>
        simp only [stringifyV, strChars, List.cons_append, List.append_assoc,
          List.singleton_append]
        have hlen : s.data.length + 1 ≤ (escapeChars s.data ++ '"' :: rest).length + 1 := by
          have := escapeChars_length_ge s.data
          simp only [List.length_append, List.length_cons]
          omega
        have hsb := parseStrBody_escapeChars s.data
          ((escapeChars s.data ++ '"' :: rest).length + 1) rest hlen
        rw [parseValue, @skipWs_cons_of_not_ws '"' (by decide)]
        simp only [List.length_append, List.length_cons] at hsb
        simp [hsb]
      | arr vs =>
        cases vs with
        | nil => rfl
        | cons v t =>
          simp only [stringifyV, List.cons_append, List.append_assoc, List.singleton_append]
          have hfi : fuelItems (v :: t) ≤ f := by
            simp only [fuelV] at hfuel
            omega
          obtain ⟨c0, t0, ht0, hw0, hne0⟩ := stringifyItems_head (d + 1) v t
          have hitems := ihItems (v :: t) f (d + 1) [] (nlIndent d) rest (by simp)
            (by have := length_lt_fuelItems (v :: t); omega)
            (fun v' hv' => by have := fuelV_lt_fuelItems hv'; omega)
            allWs_nil (allWs_nlIndent d)
          simp only [List.nil_append] at hitems
          have hcons : stringifyItems (d + 1) (v :: t) ++ (nlIndent d ++ ']' :: rest) =
              c0 :: (t0 ++ (nlIndent d ++ ']' :: rest)) := by
            rw [ht0]
            rfl
          rw [hcons] at hitems
          rw [parseValue, @skipWs_cons_of_not_ws '[' (by decide)]
          simp [ht0, List.cons_append, List.append_assoc,
            skipWs_append_of_allWs (allWs_nlIndent (d + 1)), skipWs_cons_of_not_ws hw0,
            hne0, hitems]
      | obj kvs =>
        cases kvs with
        | nil => rfl
        | cons kv t =>
          simp only [stringifyV, List.cons_append, List.append_assoc, List.singleton_append]
          have hff : fuelFields (kv :: t) ≤ f := by
            simp only [fuelV] at hfuel
            omega
          obtain ⟨t0, ht0⟩ := stringifyFields_head (d + 1) kv t
          have hfields := ihFields (kv :: t) f (d + 1) [] (nlIndent d) rest (by simp)
            (by have := length_lt_fuelFields (kv :: t); omega)
            (fun kv' hkv' => by have := fuelV_lt_fuelFields hkv'; omega)
            allWs_nil (allWs_nlIndent d)
          simp only [List.nil_append] at hfields
          have hcons : stringifyFields (d + 1) (kv :: t) ++ (nlIndent d ++ rbrace :: rest) =
              '"' :: (t0 ++ (nlIndent d ++ rbrace :: rest)) := by
            rw [ht0]
            rfl
          rw [hcons] at hfields
          rw [parseValue, skipWs_cons_of_not_ws (by decide : isWsChar lbrace = false)]
          simp [ht0, List.cons_append, List.append_assoc,
            skipWs_append_of_allWs (allWs_nlIndent (d + 1)),
            @skipWs_cons_of_not_ws '"' (by decide), hfields,
            show lbrace ≠ 'n' by decide, show lbrace ≠ 't' by decide,
            show lbrace ≠ 'f' by decide, show lbrace ≠ '"' by decide,
            show lbrace ≠ '[' by decide, show ('"' : Char) ≠ rbrace by decide]
    have hitems : ∀ (vs : List Json) (fI d : Nat) (ws0 ws rest : List Char), vs ≠ [] →
        vs.length ≤ fI → (∀ v, v ∈ vs → fuelV v ≤ f + 1) → AllWs ws0 → AllWs ws →
        parseItemsWith (parseValue (f + 1)) fI
            (ws0 ++ (stringifyItems d vs ++ (ws ++ ']' :: rest))) =
          some (vs, rest) := by
      intro vs
      induction vs with
      | nil => intro fI d ws0 ws rest hne; exact absurd rfl hne
      | cons v t iht =>
        intro fI d ws0 ws rest hne hlen hmem hws0 hws
        cases fI with
        | zero => simp at hlen
        | succ fI =>
          have hfv : fuelV v ≤ f + 1 := hmem v (List.mem_cons_self v t)
          cases t with
          | nil =>
            have hro : RestOk (ws ++ ']' :: rest) := restOk_ws_cons hws ']' (by decide) rest
            have hpv : parseValue (f + 1) (ws0 ++ (stringifyV d v ++ (ws ++ ']' :: rest))) =
                some (v, ws ++ ']' :: rest) := by
              rw [parseValue_skipWs (f + 1) hws0]
              exact hval d v _ hfv hro
            rw [parseItemsWith]
            simp only [stringifyItems]
            rw [hpv]
            simp [skipWs_append_of_allWs hws, @skipWs_cons_of_not_ws ']' (by decide)]
          | cons w t' =>
            have hro : RestOk (',' :: (nlIndent d ++ (stringifyItems d (w :: t') ++
                (ws ++ ']' :: rest)))) := restOk_cons (by decide) _
            have hpv : parseValue (f + 1) (ws0 ++ (stringifyV d v ++ (',' :: (nlIndent d ++
                (stringifyItems d (w :: t') ++ (ws ++ ']' :: rest)))))) =
                some (v, ',' :: (nlIndent d ++ (stringifyItems d (w :: t') ++
                  (ws ++ ']' :: rest)))) := by
              rw [parseValue_skipWs (f + 1) hws0]
              exact hval d v _ hfv hro
            have hrec := iht fI d (nlIndent d) ws rest (by simp) (by simp only [List.length_cons] at hlen ⊢; omega)
              (fun v' hv' => hmem v' (List.mem_cons_of_mem v hv')) (allWs_nlIndent d) hws
            rw [parseItemsWith]
            simp only [stringifyItems, List.cons_append, List.append_assoc]
            rw [hpv]
            simp [@skipWs_cons_of_not_ws ',' (by decide), hrec]
    have hfields : ∀ (kvs : List (String × Json)) (fF d : Nat) (ws0 ws rest : List Char),
        kvs ≠ [] → kvs.length ≤ fF → (∀ kv, kv ∈ kvs → fuelV kv.2 ≤ f + 1) →
        AllWs ws0 → AllWs ws →
        parseFieldsWith (parseValue (f + 1)) fF
            (ws0 ++ (stringifyFields d kvs ++ (ws ++ rbrace :: rest))) =
          some (kvs, rest) := by
      intro kvs
      induction kvs with
      | nil => intro fF d ws0 ws rest hne; exact absurd rfl hne
      | cons kv t iht =>
        intro fF d ws0 ws rest hne hlen hmem hws0 hws
        obtain ⟨k, v⟩ := kv
        cases fF with
        | zero => simp at hlen
        | succ fF =>
          have hfv : fuelV v ≤ f + 1 := hmem (k, v) (List.mem_cons_self (k, v) t)
          cases t with
          | nil =>
            have hro : RestOk (ws ++ rbrace :: rest) :=
              restOk_ws_cons hws rbrace (by decide) rest
            have hpv : parseValue (f + 1) (' ' :: (stringifyV d v ++ (ws ++ rbrace :: rest))) =
                some (v, ws ++ rbrace :: rest) := by
              rw [show (' ' :: (stringifyV d v ++ (ws ++ rbrace :: rest))) =
                ([' '] ++ (stringifyV d v ++ (ws ++ rbrace :: rest))) from rfl]
              rw [parseValue_skipWs (f + 1) (by intro c hc; simp at hc; rw [hc]; rfl)]
              exact hval d v _ hfv hro
            have hkey := parseStrBody_escapeChars k.data
              ((escapeChars k.data ++ '"' :: (':' :: ' ' :: (stringifyV d v ++
                (ws ++ rbrace :: rest)))).length + 1)
              (':' :: ' ' :: (stringifyV d v ++ (ws ++ rbrace :: rest)))
              (by have := escapeChars_length_ge k.data
                  simp only [List.length_append, List.length_cons]
                  omega)
            simp only [List.length_append, List.length_cons] at hkey
            rw [parseFieldsWith]
            simp only [stringifyFields, strChars, List.cons_append, List.append_assoc,
              List.singleton_append]
            rw [skipWs_append_of_allWs hws0, @skipWs_cons_of_not_ws '"' (by decide)]
            simp [hkey, @skipWs_cons_of_not_ws ':' (by decide), hpv,
              skipWs_append_of_allWs hws,
              skipWs_cons_of_not_ws (by decide : isWsChar rbrace = false),
              show rbrace ≠ ',' by decide]
          | cons kv' t' =>
            have hro : RestOk (',' :: (nlIndent d ++ (stringifyFields d (kv' :: t') ++
                (ws ++ rbrace :: rest)))) := restOk_cons (by decide) _
            have hpv : parseValue (f + 1) (' ' :: (stringifyV d v ++ (',' :: (nlIndent d ++
                (stringifyFields d (kv' :: t') ++ (ws ++ rbrace :: rest)))))) =
                some (v, ',' :: (nlIndent d ++ (stringifyFields d (kv' :: t') ++
                  (ws ++ rbrace :: rest)))) := by
              rw [show (' ' :: (stringifyV d v ++ (',' :: (nlIndent d ++
                  (stringifyFields d (kv' :: t') ++ (ws ++ rbrace :: rest)))))) =
                ([' '] ++ (stringifyV d v ++ (',' :: (nlIndent d ++
                  (stringifyFields d (kv' :: t') ++ (ws ++ rbrace :: rest)))))) from rfl]
              rw [parseValue_skipWs (f + 1) (by intro c hc; simp at hc; rw [hc]; rfl)]
              exact hval d v _ hfv hro
            have hkey := parseStrBody_escapeChars k.data
              ((escapeChars k.data ++ '"' :: (':' :: ' ' :: (stringifyV d v ++ (',' ::
                (nlIndent d ++ (stringifyFields d (kv' :: t') ++
                  (ws ++ rbrace :: rest))))))).length + 1)
              (':' :: ' ' :: (stringifyV d v ++ (',' :: (nlIndent d ++
                (stringifyFields d (kv' :: t') ++ (ws ++ rbrace :: rest))))))
              (by have := escapeChars_length_ge k.data
                  simp only [List.length_append, List.length_cons]
                  omega)
            simp only [List.length_append, List.length_cons] at hkey
            have hrec := iht fF d (nlIndent d) ws rest (by simp) (by simp only [List.length_cons] at hlen ⊢; omega)
              (fun kv'' hkv'' => hmem kv'' (List.mem_cons_of_mem (k, v) hkv''))
              (allWs_nlIndent d) hws
            rw [parseFieldsWith]
            simp only [stringifyFields, strChars, List.cons_append, List.append_assoc,
              List.singleton_append]
            rw [skipWs_append_of_allWs hws0, @skipWs_cons_of_not_ws '"' (by decide)]
            simp [hkey, @skipWs_cons_of_not_ws ':' (by decide), hpv,
              @skipWs_cons_of_not_ws ',' (by decide), hrec]
    exact ⟨hval, hitems, hfields⟩

mutual

theorem fuelV_le_length : ∀ (d : Nat) (v : Json), fuelV v ≤ (stringifyV d v).length
  | _, .null => by simp [fuelV, stringifyV]
  | _, .bool b => by cases b <;> simp [fuelV, stringifyV]
  | _, .num n => by
    simp only [fuelV, stringifyV, intChars]
    obtain ⟨k, t, ht, _⟩ := natChars_head n.natAbs
    split_ifs <;> simp [ht]
  | _, .str s => by simp [fuelV, stringifyV, strChars]
  | _, .arr [] => by simp [fuelV, fuelItems, stringifyV]
  | d, .arr (v :: vs) => by
    have h := fuelItems_le_length (d + 1) v vs
    simp only [fuelV, stringifyV, List.length_cons, List.length_append, nlIndent,
      List.length_replicate]
    omega
  | _, .obj [] => by simp [fuelV, fuelFields, stringifyV]
  | d, .obj (kv :: kvs) => by
    have h := fuelFields_le_length (d + 1) kv kvs
    simp only [fuelV, stringifyV, List.length_cons, List.length_append, nlIndent,
      List.length_replicate]
    omega
termination_by d v => sizeOf v

theorem fuelItems_le_length : ∀ (d : Nat) (v : Json) (vs : List Json),
    fuelItems (v :: vs) ≤ (stringifyItems d (v :: vs)).length + 2
  | d, v, [] => by
    have h := fuelV_le_length d v
    simp only [fuelItems, stringifyItems]
    omega
  | d, v, w :: vs => by
    have h1 := fuelV_le_length d v
    have h2 := fuelItems_le_length d w vs
    have hfi : fuelItems (v :: w :: vs) = 1 + fuelV v + fuelItems (w :: vs) := rfl
    rw [hfi]
    simp only [stringifyItems, List.length_append, List.length_cons, nlIndent,
      List.length_replicate]
    omega
termination_by d v vs => sizeOf (v :: vs)

theorem fuelFields_le_length : ∀ (d : Nat) (kv : String × Json) (kvs : List (String × Json)),
    fuelFields (kv :: kvs) ≤ (stringifyFields d (kv :: kvs)).length + 2
  | d, (k, v), [] => by
    have h := fuelV_le_length d v
    simp only [fuelFields, stringifyFields, List.length_append, List.length_cons]
    omega
  | d, (k, v), kv' :: kvs => by
    have h1 := fuelV_le_length d v
    have h2 := fuelFields_le_length d kv' kvs
    have hff : fuelFields ((k, v) :: kv' :: kvs) = 1 + fuelV v + fuelFields (kv' :: kvs) := rfl
    rw [hff]
    simp only [stringifyFields, List.length_append, List.length_cons, nlIndent,
      List.length_replicate]
    omega
termination_by d kv kvs => sizeOf (kv :: kvs)

end

/-- Stringify-then-parse is the identity on the modelled JSON values. -/
theorem parseJson_stringify (v : Json) : parseJson (stringify v) = some v := by
  have hle : fuelV v ≤ (stringifyV 0 v).length + 1 := by
    have := fuelV_le_length 0 v
    omega
  have h := (parse_stringify ((stringifyV 0 v).length + 1)).1 0 v [] hle restOk_nil
  rw [List.append_nil] at h
  show (match parseValue ((stringifyV 0 v).length + 1) (stringifyV 0 v) with
    | some (w, rest) => if skipWs rest = [] then some w else none
    | none => none) = some v
  rw [h]
  rfl

/-- Directory for local JSON storage, `path.join(__dirname, 'data')`, relative
to the server root. -/
def DATA_DIR : String := "data"

/-- The users collection file, `path.join(DATA_DIR, 'users.json')`. -/
def USERS_FILE : String := "data/users.json"

/-- The reports collection file, `path.join(DATA_DIR, 'reports.json')`. -/
def REPORTS_FILE : String := "data/reports.json"

/-- One filesystem effect performed by the storage helpers. -/
inductive FsOp where
  | mkdirRecursive (dir : String) : FsOp
  | writeFile (path : String) (contents : String) : FsOp
  | rename (src dst : String) : FsOp

/-- Whether an effect is a rename. -/
def FsOp.isRename : FsOp → Bool
  | .rename _ _ => true
  | _ => false

/-- Model of `readJson(file, fallback = [])` from server.js: the file contents
are `none` when the file is absent (so `fs.readFile` rejects and the `catch`
returns the fallback `[]`); an empty file parses `'[]'` because of
`txt || '[]'`; a `JSON.parse` failure also returns the fallback. -/
def readJson (file : Option String) : Json :=
  match file with
  | none => Json.arr []
  | some txt =>
    match parseJson (if txt = "" then "[]" else txt) with
    | some v => v
    | none => Json.arr []

/-- Model of `writeJson(file, data)` from server.js as the sequence of
filesystem effects it performs: `fs.mkdir(DATA_DIR, { recursive: true })`
followed by `fs.writeFile(file, JSON.stringify(data, null, 2), 'utf8')`. -/
def writeJson (file : String) (data : Json) : List FsOp :=
  [FsOp.mkdirRecursive DATA_DIR, FsOp.writeFile file (stringify data)]

/-- C4 counterexample: `writeJson` on a concrete call performs no rename at
all; it writes the serialized snapshot directly to the final path, so the
claimed write-to-temporary-then-rename step does not exist. -/
theorem writeJson_no_temp_rename_cex :
    writeJson USERS_FILE (Json.arr []) =
      [FsOp.mkdirRecursive DATA_DIR, FsOp.writeFile USERS_FILE "[]"] ∧
    (writeJson USERS_FILE (Json.arr [])).filter (fun op => op.isRename) = [] :=
  ⟨rfl, rfl⟩

/-- C4 (amended): `writeJson` ensures the data directory exists and then
writes the new snapshot directly to the collection file in a single write; no
temporary file and no rename are involved, so the write is not atomic and an
interrupted write can corrupt the previous snapshot. -/
theorem writeJson_direct_write (file : String) (data : Json) :
    writeJson file data =
      [FsOp.mkdirRecursive DATA_DIR, FsOp.writeFile file (stringify data)] ∧
    ∀ op, op ∈ writeJson file data → op.isRename = false := by
  refine ⟨rfl, ?_⟩
  intro op hop
  simp only [writeJson, List.mem_cons, List.not_mem_nil, or_false] at hop
  rcases hop with h | h <;> (subst h; rfl)

/-- Closed instance of `writeJson_direct_write` at a concrete call. -/
theorem writeJson_direct_write_witness :
    FsOp.isRename (FsOp.mkdirRecursive DATA_DIR) = false :=
  (writeJson_direct_write USERS_FILE (Json.num 1)).2 (FsOp.mkdirRecursive DATA_DIR)
    (by simp [writeJson])

/-- C5: writing any sequence of records with `writeJson` and reading the
written contents back with `readJson` yields the same sequence in the same
order. -/
theorem readJson_writeJson_roundtrip (file : String) (records : List Json) :
    writeJson file (Json.arr records) =
      [FsOp.mkdirRecursive DATA_DIR, FsOp.writeFile file (stringify (Json.arr records))] ∧
    readJson (some (stringify (Json.arr records))) = Json.arr records := by
  refine ⟨rfl, ?_⟩
  obtain ⟨c, t, ht, _, _⟩ := stringifyV_head 0 (Json.arr records)
  have hne : stringify (Json.arr records) ≠ "" := by
    intro he
    have : stringifyV 0 (Json.arr records) = [] := by
      have := congrArg String.data he
      simpa [stringify] using this
    rw [ht] at this
    cases this
  rw [readJson, if_neg hne, parseJson_stringify]

/-- C6: `readJson` never fails the caller; an absent file, an empty file and
an unparsable file all yield the empty collection, so a parse failure is
indistinguishable from an absent collection. -/
theorem readJson_total_fallback :
    readJson none = Json.arr [] ∧ readJson (some "") = Json.arr [] ∧
    ∀ txt : String, parseJson txt = none → readJson (some txt) = Json.arr [] := by
  refine ⟨rfl, rfl, ?_⟩
  intro txt hp
  by_cases he : txt = ""
  · subst he
    rfl
  · rw [readJson, if_neg he, hp]

/-- Closed instance of `readJson_total_fallback` on a concrete unparsable
file. -/
theorem readJson_total_fallback_witness :
    parseJson "nope" = none ∧ readJson (some "nope") = Json.arr [] :=
  ⟨rfl, readJson_total_fallback.2.2 "nope" rfl⟩

/-! ## Operational model of the handlers

The five HTTP handlers and the four `db*` Supabase adapters from server.js,
embedded as explicit state-passing functions. The remote backend
(supabase-js plus the Postgres tables of supabase_setup.sql) is an external
collaborator; it is modelled at its interface: rows live in insertion order,
`bigserial` ids and `created_at` stamps come from a monotone counter, and
`order by created_at desc` is reversal of insertion order. A call to the
remote backend may instead be answered by an error with a message (a fault,
supplied per call by the environment); the local JSON files are abstracted to
their parsed record lists, which `readJson_writeJson_roundtrip` justifies.
Missing request fields are modelled by the empty string, which is exactly the
set of falsy strings the handlers test with `!field` and `field || default`.
-/

/-- A row of the remote `users` table (columns of supabase_setup.sql). -/
structure RemoteUser where
  id : Nat
  full_name : String
  username : String
  email : String
  account_type : String
  password : String
  created_at : Nat
deriving DecidableEq, Repr

/-- A row of the remote `reports` table. -/
structure RemoteReport where
  id : Nat
  name : String
  grade : String
  type : String
  description : String
  incident_date : String
  created_at : Nat
deriving DecidableEq, Repr

/-- A record of the local `users.json` collection (camelCase fields, as the
signup fallback writes them). -/
structure LocalUser where
  id : Nat
  fullName : String
  username : String
  email : String
  accountType : String
  password : String
deriving DecidableEq, Repr

/-- A record of the local `reports.json` collection. -/
structure LocalReport where
  id : Nat
  name : String
  grade : String
  type : String
  description : String
  date : String
deriving DecidableEq, Repr

/-- Process state: the `supabaseAvailable` flag, both remote tables with the
remote id/timestamp counter, both local collections, and a count of calls
actually issued to the remote adapter (for stating that a demoted process
never talks to Supabase again). -/
structure St where
  supabaseAvailable : Bool
  remoteUsers : List RemoteUser
  remoteReports : List RemoteReport
  remoteSeq : Nat
  localUsers : List LocalUser
  localReports : List LocalReport
  remoteCalls : Nat
deriving DecidableEq, Repr

/-- Javascript `s || d` for strings: the empty string is the only falsy one. -/
def jsOr (s d : String) : String := if s = "" then d else s

/-- Whether `pat` occurs as a contiguous run inside the second list. -/
def hasInfix (pat : List Char) : List Char → Bool
  | [] => pat.isEmpty
  | c :: t => pat.isPrefixOf (c :: t) || hasInfix pat t

/-- ASCII lower-casing, which is what `/i` matching amounts to on the ASCII
patterns of the classification regexes. -/
def lowerChar (c : Char) : Char :=
  if 65 ≤ c.toNat ∧ c.toNat ≤ 90 then Char.ofNat (c.toNat + 32) else c

/-- Case-insensitive substring test, the effect of an `/i` regex alternative
with no metacharacters. -/
def containsCI (s pat : String) : Bool :=
  hasInfix (pat.data.map lowerChar) (s.data.map lowerChar)

/-- The structural-unavailability signature of the lookup adapters
(`dbFindUserByUsername`, and `dbGetReports` below, whose regex literals write
the dot as `\.`, a literal dot):
`/Could not find the table|relation "public.users" does not exist|row-level security policy/i`. -/
def isStructuralUsersError (msg : String) : Bool :=
  containsCI msg "Could not find the table" ||
  containsCI msg "relation \"public.users\" does not exist" ||
  containsCI msg "row-level security policy"

/-- Lookup-adapter signature for reports-table errors (`\.`, a literal dot). -/
def isStructuralReportsError (msg : String) : Bool :=
  containsCI msg "Could not find the table" ||
  containsCI msg "relation \"public.reports\" does not exist" ||
  containsCI msg "row-level security policy"

/-- Whether a character is matched by an unflagged Javascript regex `.`:
anything but a line terminator. -/
def isRegexDotChar (c : Char) : Bool :=
  !(c.toNat == 10 || c.toNat == 13 || c.toNat == 8232 || c.toNat == 8233)

/-- Whether the list starts with `pre`, then one `.`-matchable character,
then `post`. -/
def isPrefixWithWild (pre post s : List Char) : Bool :=
  pre.isPrefixOf s &&
    match s.drop pre.length with
    | [] => false
    | c :: rest => isRegexDotChar c && post.isPrefixOf rest

/-- Whether `pre`, one wildcard character, then `post` occur contiguously
somewhere in the list. -/
def hasInfixWild (pre post : List Char) : List Char → Bool
  | [] => false
  | c :: t => isPrefixWithWild pre post (c :: t) || hasInfixWild pre post t

/-- Case-insensitive match of `pre` + `.` + `post` somewhere in `s`. -/
def containsWildCI (s pre post : String) : Bool :=
  hasInfixWild (pre.data.map lowerChar) (post.data.map lowerChar) (s.data.map lowerChar)

/-- The structural-unavailability signature of the insert adapters
(`dbCreateUser`, and `dbCreateReport` below). Their regex literals double
the backslash — `relation \"public\\.users\" does not exist` — so the middle
alternative demands a literal backslash followed by any character where the
lookup adapters demand a dot: the genuine Postgres message
`relation "public.users" does not exist` is NOT matched here. -/
def isStructuralUsersInsertError (msg : String) : Bool :=
  containsCI msg "Could not find the table" ||
  containsWildCI msg "relation \"public\\" "users\" does not exist" ||
  containsCI msg "row-level security policy"

/-- Insert-adapter signature for reports-table errors (doubled backslash:
literal `\` plus any character in place of the dot). -/
def isStructuralReportsInsertError (msg : String) : Bool :=
  containsCI msg "Could not find the table" ||
  containsWildCI msg "relation \"public\\" "reports\" does not exist" ||
  containsCI msg "row-level security policy"

/-- `disableSupabase(reason)`: flip the flag off (the reason is only logged). -/
def disableSupabase (st : St) (reason : String) : St :=
  { st with supabaseAvailable := false }

/-- Fields of a `users` insert as built by the signup handler. -/
structure UserInsert where
  full_name : String
  username : String
  email : String
  account_type : String
  password : String
deriving DecidableEq, Repr

/-- Fields of a `reports` insert as built by the report handler. -/
structure ReportInsert where
  name : String
  grade : String
  type : String
  description : String
  incident_date : String
deriving DecidableEq, Repr

/-- Remote `insert([user]).select()`: the backend assigns `id` and
`created_at` from its monotone counter and returns the inserted row. -/
def insertRemoteUser (st : St) (u : UserInsert) : St × RemoteUser :=
  let row : RemoteUser :=
    ⟨st.remoteSeq, u.full_name, u.username, u.email, u.account_type, u.password, st.remoteSeq⟩
  ({ st with remoteUsers := st.remoteUsers ++ [row], remoteSeq := st.remoteSeq + 1 }, row)

/-- Remote `insert([report]).select()`. -/
def insertRemoteReport (st : St) (r : ReportInsert) : St × RemoteReport :=
  let row : RemoteReport :=
    ⟨st.remoteSeq, r.name, r.grade, r.type, r.description, r.incident_date, st.remoteSeq⟩
  ({ st with remoteReports := st.remoteReports ++ [row], remoteSeq := st.remoteSeq + 1 }, row)

/-- Count one call actually issued to the remote adapter. -/
def tickRemote (st : St) : St := { st with remoteCalls := st.remoteCalls + 1 }

/-- `dbCreateUser(user)`: `null` when Supabase is (or becomes) unavailable,
the inserted row on success, a thrown error message otherwise. The `fault`
argument is the error, if any, this remote call answers with. Its regex
doubles the backslash, hence the insert-path signature. -/
def dbCreateUser (st : St) (fault : Option String) (u : UserInsert) :
    St × Except String (Option RemoteUser) :=
  if st.supabaseAvailable then
    match fault with
    | some msg =>
      if isStructuralUsersInsertError msg then (disableSupabase (tickRemote st) msg, .ok none)
      else (tickRemote st, .error msg)
    | none =>
      let p := insertRemoteUser (tickRemote st) u
      (p.1, .ok (some p.2))
  else (st, .ok none)

/-- `dbFindUserByUsername(username)`: first row with this username via
`.eq('username', username).limit(1)`, then `data[0] || null`. -/
def dbFindUserByUsername (st : St) (fault : Option String) (username : String) :
    St × Except String (Option RemoteUser) :=
  if st.supabaseAvailable then
    match fault with
    | some msg =>
      if isStructuralUsersError msg then (disableSupabase (tickRemote st) msg, .ok none)
      else (tickRemote st, .error msg)
    | none =>
      (tickRemote st, .ok ((st.remoteUsers.filter (fun u => u.username == username)).head?))
  else (st, .ok none)

/-- `dbCreateReport(report)`. Its regex also doubles the backslash, hence
the insert-path signature. -/
def dbCreateReport (st : St) (fault : Option String) (r : ReportInsert) :
    St × Except String (Option RemoteReport) :=
  if st.supabaseAvailable then
    match fault with
    | some msg =>
      if isStructuralReportsInsertError msg then (disableSupabase (tickRemote st) msg, .ok none)
      else (tickRemote st, .error msg)
    | none =>
      let p := insertRemoteReport (tickRemote st) r
      (p.1, .ok (some p.2))
  else (st, .ok none)

/-- `dbGetReports()`: all rows ordered by `created_at` descending, which is
reverse insertion order since `created_at` is assigned monotonically. -/
def dbGetReports (st : St) (fault : Option String) :
    St × Except String (Option (List RemoteReport)) :=
  if st.supabaseAvailable then
    match fault with
    | some msg =>
      if isStructuralReportsError msg then (disableSupabase (tickRemote st) msg, .ok none)
      else (tickRemote st, .error msg)
    | none => (tickRemote st, .ok (some st.remoteReports.reverse))
  else (st, .ok none)

/-- The `user` object of a successful signup/login response:
`{ id, username, accountType }` built from a remote row. -/
structure PublicUser where
  id : Nat
  username : String
  accountType : String
deriving DecidableEq, Repr

/-- Projection used by the handlers on a remote row. -/
def publicOfRemote (u : RemoteUser) : PublicUser := ⟨u.id, u.username, u.account_type⟩

/-- Projection used by the handlers on a local record. -/
def publicOfLocal (u : LocalUser) : PublicUser := ⟨u.id, u.username, u.accountType⟩

/-- Report payload of `POST /api/reports`: the remote branch returns the
inserted remote row, the fallback returns the new local record. -/
inductive ReportPayload where
  | remote (r : RemoteReport) : ReportPayload
  | fromLocal (r : LocalReport) : ReportPayload
deriving DecidableEq, Repr

/-- Reporter name of the payload. -/
def ReportPayload.name : ReportPayload → String
  | .remote r => r.name
  | .fromLocal r => r.name

/-- Grade of the payload. -/
def ReportPayload.grade : ReportPayload → String
  | .remote r => r.grade
  | .fromLocal r => r.grade

/-- An element of the `GET /api/reports` output after the handler's mapping
(`incident_date` exposed as `date`; local rows are passed through unmapped,
hence the separate `okReportsLocal` response below). -/
structure ReportOut where
  id : Nat
  name : String
  grade : String
  type : String
  description : String
  date : String
  created_at : Option Nat
deriving DecidableEq, Repr

/-- Remote-to-output mapping of `GET /api/reports`; in the typed model every
remote row carries `incident_date`, so the `r.incident_date || r.date`
fallback collapses to `incident_date`. -/
def mapRemoteReport (r : RemoteReport) : ReportOut :=
  ⟨r.id, r.name, r.grade, r.type, r.description, r.incident_date, some r.created_at⟩

/-- An element of the `GET /api/users` output: the selected remote columns,
or the local mapping onto the same shape. The `password` column is absent. -/
structure UserOut where
  id : Nat
  full_name : String
  username : String
  email : String
  account_type : String
  created_at : Option Nat
deriving DecidableEq, Repr

/-- The remote projection `select('id, full_name, username, email,
account_type, created_at')`. -/
def remoteUserOut (u : RemoteUser) : UserOut :=
  ⟨u.id, u.full_name, u.username, u.email, u.account_type, some u.created_at⟩

/-- The local mapping of `GET /api/users`; the `u.fullName || u.full_name
|| ''` legacy fallbacks collapse in the typed model, and `u.created_at ||
null` is `none`. -/
def localUserOut (u : LocalUser) : UserOut :=
  ⟨u.id, u.fullName, u.username, u.email, u.accountType, none⟩

/-- HTTP responses the handlers produce, by status and payload shape. -/
inductive Resp where
  | badRequest (msg : String) : Resp
  | conflict (msg : String) : Resp
  | unauthorized (msg : String) : Resp
  | serverError (msg : String) : Resp
  | okUser (user : PublicUser) : Resp
  | okReport (report : ReportPayload) : Resp
  | okReportsRemote (reports : List ReportOut) : Resp
  | okReportsLocal (reports : List LocalReport) : Resp
  | okUsers (users : List UserOut) : Resp
deriving DecidableEq, Repr

/-- Body of `POST /api/signup`. -/
structure SignupReq where
  fullName : String
  username : String
  email : String
  accountType : String
  password : String
deriving DecidableEq, Repr

/-- Body of `POST /api/login`. -/
structure LoginReq where
  username : String
  password : String
  accountType : String
deriving DecidableEq, Repr

/-- Body of `POST /api/reports`. -/
structure ReportReq where
  name : String
  grade : String
  type : String
  description : String
  date : String
deriving DecidableEq, Repr

/-- The signup fallback: read `users.json`, reject a duplicate username,
append the new record (id from `Date.now()`, passed as `now`) and write the
file back. -/
def localSignup (st : St) (now : Nat) (req : SignupReq) : St × Resp :=
  let users := st.localUsers
  if users.any (fun u => u.username == req.username) then
    (st, .conflict "Username already exists")
  else
    let newUser : LocalUser := ⟨now, req.fullName, req.username, req.email,
      req.accountType, req.password⟩
    ({ st with localUsers := users ++ [newUser] }, .okUser (publicOfLocal newUser))

/-- `POST /api/signup`. `o1` and `o2` are the faults, if any, answered by the
two remote calls (uniqueness lookup, then insert). -/
def postSignup (st : St) (o1 o2 : Option String) (now : Nat) (req : SignupReq) : St × Resp :=
  if req.fullName = "" ∨ req.username = "" ∨ req.email = "" ∨ req.accountType = "" ∨
      req.password = "" then
    (st, .badRequest "Missing required fields")
  else if st.supabaseAvailable then
    match dbFindUserByUsername st o1 req.username with
    | (st1, .error msg) => (st1, .serverError msg)
    | (st1, .ok (some _)) => (st1, .conflict "Username already exists")
    | (st1, .ok none) =>
      match dbCreateUser st1 o2
          ⟨req.fullName, req.username, req.email, req.accountType, req.password⟩ with
      | (st2, .error msg) => (st2, .serverError msg)
      | (st2, .ok (some inserted)) => (st2, .okUser (publicOfRemote inserted))
      | (st2, .ok none) => localSignup st2 now req
  else localSignup st now req

/-- The login fallback: scan `users.json` for a record matching username,
password and account type together. -/
def localLogin (st : St) (req : LoginReq) : St × Resp :=
  match st.localUsers.find? (fun u => u.username == req.username &&
      u.password == req.password && u.accountType == req.accountType) with
  | none => (st, .unauthorized "Invalid credentials")
  | some user => (st, .okUser (publicOfLocal user))

/-- `POST /api/login`. `o` is the fault, if any, answered by the remote
lookup. A remote lookup that finds no row yields `null`, which the handler
cannot tell apart from Supabase having become unavailable, so both fall
through to the local store. -/
def postLogin (st : St) (o : Option String) (req : LoginReq) : St × Resp :=
  if req.username = "" ∨ req.password = "" ∨ req.accountType = "" then
    (st, .badRequest "Missing fields")
  else if st.supabaseAvailable then
    match dbFindUserByUsername st o req.username with
    | (st1, .error msg) => (st1, .serverError msg)
    | (st1, .ok (some user)) =>
      if user.password == req.password && user.account_type == req.accountType then
        (st1, .okUser (publicOfRemote user))
      else (st1, .unauthorized "Invalid credentials")
    | (st1, .ok none) => localLogin st1 req
  else localLogin st req

/-- The report fallback: prepend (`unshift`) the new record and write back. -/
def localCreateReport (st : St) (now : Nat) (req : ReportReq) : St × Resp :=
  let newReport : LocalReport := ⟨now, jsOr req.name "Anonymous", jsOr req.grade "",
    req.type, req.description, req.date⟩
  ({ st with localReports := newReport :: st.localReports }, .okReport (.fromLocal newReport))

/-- `POST /api/reports`. -/
def postReports (st : St) (o : Option String) (now : Nat) (req : ReportReq) : St × Resp :=
  if req.type = "" ∨ req.description = "" ∨ req.date = "" then
    (st, .badRequest "Missing required report fields")
  else if st.supabaseAvailable then
    match dbCreateReport st o ⟨jsOr req.name "Anonymous", jsOr req.grade "",
        req.type, req.description, req.date⟩ with
    | (st1, .error msg) => (st1, .serverError msg)
    | (st1, .ok (some inserted)) => (st1, .okReport (.remote inserted))
    | (st1, .ok none) => localCreateReport st1 now req
  else localCreateReport st now req

/-- `GET /api/reports`. -/
def getReports (st : St) (o : Option String) : St × Resp :=
  if st.supabaseAvailable then
    match dbGetReports st o with
    | (st1, .error msg) => (st1, .serverError msg)
    | (st1, .ok (some rows)) => (st1, .okReportsRemote (rows.map mapRemoteReport))
    | (st1, .ok none) => (st1, .okReportsLocal st1.localReports)
  else (st, .okReportsLocal st.localReports)

/-- The users fallback: read `users.json` and map onto the remote column
names. -/
def localListUsers (st : St) : St × Resp :=
  (st, .okUsers (st.localUsers.map localUserOut))

/-- `GET /api/users`. Unlike the `db*` adapters, the inline `try` here
disables Supabase on ANY error and falls back to the local file. -/
def getUsers (st : St) (o : Option String) : St × Resp :=
  if st.supabaseAvailable then
    match o with
    | some _ => localListUsers { tickRemote st with supabaseAvailable := false }
    | none => (tickRemote st, .okUsers ((st.remoteUsers.reverse).map remoteUserOut))
  else localListUsers st

/-- One inbound request, with the faults its remote calls would answer and
the `Date.now()` value of the handling instant. -/
inductive Op where
  | signup (o1 o2 : Option String) (now : Nat) (req : SignupReq) : Op
  | login (o : Option String) (req : LoginReq) : Op
  | createReport (o : Option String) (now : Nat) (req : ReportReq) : Op
  | listReports (o : Option String) : Op
  | listUsers (o : Option String) : Op
deriving DecidableEq, Repr

/-- Dispatch one request to its handler. -/
def step (st : St) : Op → St × Resp
  | .signup o1 o2 now req => postSignup st o1 o2 now req
  | .login o req => postLogin st o req
  | .createReport o now req => postReports st o now req
  | .listReports o => getReports st o
  | .listUsers o => getUsers st o

/-- Run a sequence of requests, threading the state. -/
def run (st : St) : List Op → St
  | [] => st
  | op :: ops => run (step st op).1 ops

example : isStructuralUsersError "Could not find the table 'public.users' in the schema cache" = true := by decide

example : isStructuralUsersError "rate limit exceeded" = false := by decide

example : isStructuralReportsError "new row violates row-level security policy" = true := by decide

example : isStructuralUsersError "relation \"public.users\" does not exist" = true := by decide

example : isStructuralUsersInsertError "relation \"public.users\" does not exist" = false := by
  decide

example : isStructuralUsersInsertError "relation \"public\\.users\" does not exist" = true := by
  decide

example : isStructuralReportsInsertError "relation \"public.reports\" does not exist" = false := by
  decide



/-- The remote lookup finds nothing when no stored row carries the username. -/
theorem remoteFind_none {st : St} {username : String}
    (h : ∀ u, u ∈ st.remoteUsers → u.username ≠ username) :
    (st.remoteUsers.filter (fun u => u.username == username)).head? = none := by
  rw [List.head?_eq_none_iff, List.filter_eq_nil_iff]
  intro u hu
  simp [h u hu]

/-- C2 counterexample: a remote error that does not match the
structural-unavailability signature, answered to `GET /api/users`, does
demote the process and does fall back to the local store — the claim fails
for `listUsers`. -/
theorem transient_listUsers_demotes_cex :
    isStructuralUsersError "rate limit exceeded" = false ∧
    (getUsers ⟨true, [⟨3, "Ana A", "ana", "ana@x", "Student", "pw", 3⟩], [], 4,
        [⟨7, "Bea B", "bea", "bea@x", "Student", "pw2"⟩], [], 0⟩
      (some "rate limit exceeded")).1.supabaseAvailable = false ∧
    (getUsers ⟨true, [⟨3, "Ana A", "ana", "ana@x", "Student", "pw", 3⟩], [], 4,
        [⟨7, "Bea B", "bea", "bea@x", "Student", "pw2"⟩], [], 0⟩
      (some "rate limit exceeded")).2 =
      .okUsers [⟨7, "Bea B", "bea", "bea@x", "Student", none⟩] := by
  refine ⟨by decide, by decide, by decide⟩

/-- C2 (amended): a remote error that does not match the adapter's own
structural-unavailability signature propagates to the caller as a server
error, leaves `supabaseAvailable` untouched and causes no local read or
write — for the `db*`-guarded operations (the signup lookup, the signup
insert, the login lookup, `createReport`, `listReports`). The two insert
adapters carry a different signature from the lookups: their regexes double
the backslash, demanding a literal `\` plus any character where the lookups
demand a dot, so the genuine `relation "public.users" does not exist`
message is transient on the insert paths. `GET /api/users` is the
exception to the whole discipline: its inline handler demotes on any remote
error, transient or not, and serves the local store instead. -/
theorem transient_error_no_demotion :
    (∀ (st : St) (o2 : Option String) (now : Nat) (req : SignupReq) (msg : String),
      st.supabaseAvailable = true → isStructuralUsersError msg = false →
      ¬(req.fullName = "" ∨ req.username = "" ∨ req.email = "" ∨ req.accountType = "" ∨
        req.password = "") →
      postSignup st (some msg) o2 now req = (tickRemote st, .serverError msg)) ∧
    (∀ (st : St) (now : Nat) (req : SignupReq) (msg : String),
      st.supabaseAvailable = true → isStructuralUsersInsertError msg = false →
      ¬(req.fullName = "" ∨ req.username = "" ∨ req.email = "" ∨ req.accountType = "" ∨
        req.password = "") →
      (∀ u, u ∈ st.remoteUsers → u.username ≠ req.username) →
      postSignup st none (some msg) now req = (tickRemote (tickRemote st), .serverError msg)) ∧
    (∀ (st : St) (req : LoginReq) (msg : String),
      st.supabaseAvailable = true → isStructuralUsersError msg = false →
      ¬(req.username = "" ∨ req.password = "" ∨ req.accountType = "") →
      postLogin st (some msg) req = (tickRemote st, .serverError msg)) ∧
    (∀ (st : St) (now : Nat) (req : ReportReq) (msg : String),
      st.supabaseAvailable = true → isStructuralReportsInsertError msg = false →
      ¬(req.type = "" ∨ req.description = "" ∨ req.date = "") →
      postReports st (some msg) now req = (tickRemote st, .serverError msg)) ∧
    (∀ (st : St) (msg : String),
      st.supabaseAvailable = true → isStructuralReportsError msg = false →
      getReports st (some msg) = (tickRemote st, .serverError msg)) ∧
    (∀ (st : St) (msg : String),
      st.supabaseAvailable = true →
      getUsers st (some msg) = localListUsers { tickRemote st with supabaseAvailable := false }) := by
  refine ⟨?_, ?_, ?_, ?_, ?_, ?_⟩
  · intro st o2 now req msg ha hm hv
    simp [postSignup, dbFindUserByUsername, ha, hm, hv]
  · intro st now req msg ha hm hv hnone
    simp [postSignup, dbFindUserByUsername, dbCreateUser, ha, hm, hv,
      remoteFind_none hnone, tickRemote]
  · intro st req msg ha hm hv
    simp [postLogin, dbFindUserByUsername, ha, hm, hv]
  · intro st now req msg ha hm hv
    simp [postReports, dbCreateReport, ha, hm, hv]
  · intro st msg ha hm
    simp [getReports, dbGetReports, ha, hm]
  · intro st msg ha
    simp [getUsers, ha]

/-- Closed instances of `transient_error_no_demotion`: a rate-limit error on
the login lookup is a plain 500, and on the signup insert path even the
genuine `relation "public.users" does not exist` message — excluded by the
doubled-backslash regex — propagates as a 500 without demoting. -/
theorem transient_error_no_demotion_witness :
    postLogin ⟨true, [], [], 1, [], [], 0⟩ (some "rate limit exceeded")
        ⟨"ana", "pw", "Student"⟩ =
      (tickRemote ⟨true, [], [], 1, [], [], 0⟩, .serverError "rate limit exceeded") ∧
    postSignup ⟨true, [], [], 1, [], [], 0⟩ none
        (some "relation \"public.users\" does not exist") 42
        ⟨"Ana A", "ana", "a@x", "Student", "pw"⟩ =
      (tickRemote (tickRemote ⟨true, [], [], 1, [], [], 0⟩),
        .serverError "relation \"public.users\" does not exist") :=
  ⟨transient_error_no_demotion.2.2.1 ⟨true, [], [], 1, [], [], 0⟩ ⟨"ana", "pw", "Student"⟩
      "rate limit exceeded" (by decide) (by decide) (by decide),
    transient_error_no_demotion.2.1 ⟨true, [], [], 1, [], [], 0⟩ 42
      ⟨"Ana A", "ana", "a@x", "Student", "pw"⟩ "relation \"public.users\" does not exist"
      (by decide) (by decide) (by decide) (by simp)⟩


/-- C3 counterexample: with the remote store available and the remote lookup
succeeding but finding no matching user, the handler does consult the local
store and grants the login from it — the local store is reached on a
successful remote lookup, which the claim rules out. -/
theorem login_falls_back_on_remote_miss_cex :
    (postLogin ⟨true, [], [], 1, [⟨5, "Bea B", "bea", "bea@x", "Student", "pw"⟩], [], 0⟩
      none ⟨"bea", "pw", "Student"⟩).2 = .okUser ⟨5, "bea", "Student"⟩ ∧
    (postLogin ⟨true, [], [], 1, [⟨5, "Bea B", "bea", "bea@x", "Student", "pw"⟩], [], 0⟩
      none ⟨"bea", "pw", "Student"⟩).1.supabaseAvailable = true := by
  refine ⟨by decide, by decide⟩

/-- C3 (amended): when the remote lookup succeeds and finds a record, the
outcome is decided by the remote store alone — matching password and account
type yield success, any mismatch yields Unauthorized, and the local store is
not consulted and not changed. When the remote lookup succeeds but finds no
matching user, its `null` result is indistinguishable from Supabase having
become unavailable, and the handler falls through to the local store. -/
theorem login_remote_decides_when_found :
    (∀ (st : St) (req : LoginReq) (u : RemoteUser),
      st.supabaseAvailable = true →
      ¬(req.username = "" ∨ req.password = "" ∨ req.accountType = "") →
      (st.remoteUsers.filter (fun v => v.username == req.username)).head? = some u →
      postLogin st none req = (tickRemote st,
        if u.password == req.password && u.account_type == req.accountType then
          .okUser (publicOfRemote u)
        else .unauthorized "Invalid credentials")) ∧
    (∀ (st : St) (req : LoginReq),
      st.supabaseAvailable = true →
      ¬(req.username = "" ∨ req.password = "" ∨ req.accountType = "") →
      (st.remoteUsers.filter (fun v => v.username == req.username)).head? = none →
      postLogin st none req = localLogin (tickRemote st) req) := by
  constructor
  · intro st req u ha hv hfind
    simp only [postLogin, if_neg hv, ha, if_true, dbFindUserByUsername, hfind]
    split_ifs with hcred <;> simp [hcred]
  · intro st req ha hv hfind
    simp [postLogin, if_neg hv, ha, dbFindUserByUsername, hfind]

/-- Closed instance of `login_remote_decides_when_found`: a found remote
record with the wrong password is rejected, not retried locally. -/
theorem login_remote_decides_when_found_witness :
    postLogin ⟨true, [⟨3, "Ana A", "ana", "ana@x", "Student", "right", 3⟩], [], 4,
        [⟨9, "Ana L", "ana", "ana@l", "Student", "wrong"⟩], [], 0⟩
      none ⟨"ana", "wrong", "Student"⟩ =
      (tickRemote ⟨true, [⟨3, "Ana A", "ana", "ana@x", "Student", "right", 3⟩], [], 4,
        [⟨9, "Ana L", "ana", "ana@l", "Student", "wrong"⟩], [], 0⟩,
       .unauthorized "Invalid credentials") := by
  have h := login_remote_decides_when_found.1
    ⟨true, [⟨3, "Ana A", "ana", "ana@x", "Student", "right", 3⟩], [], 4,
      [⟨9, "Ana L", "ana", "ana@l", "Student", "wrong"⟩], [], 0⟩
    ⟨"ana", "wrong", "Student"⟩ ⟨3, "Ana A", "ana", "ana@x", "Student", "right", 3⟩
    (by decide) (by decide) (by decide)
  rw [h]
  decide


/-- C7: a report submitted with type, description and date but no name and no
grade is stored and returned with name `"Anonymous"` and grade `""`, whether
the remote or the local store persists it (the returned payload is exactly
the stored record in both branches). -/
theorem createReport_defaults :
    ∀ (st : St) (o : Option String) (now : Nat) (ty de da : String),
      ty ≠ "" → de ≠ "" → da ≠ "" →
      ∀ p, (postReports st o now ⟨"", "", ty, de, da⟩).2 = .okReport p →
        p.name = "Anonymous" ∧ p.grade = "" ∧
        (match p with
         | .remote r => (postReports st o now ⟨"", "", ty, de, da⟩).1.remoteReports =
             st.remoteReports ++ [r]
         | .fromLocal r => (postReports st o now ⟨"", "", ty, de, da⟩).1.localReports =
             r :: st.localReports) := by
  intro st o now ty de da hty hde hda p hp
  have hv : ¬(ty = "" ∨ de = "" ∨ da = "") := by simp [hty, hde, hda]
  cases ha : st.supabaseAvailable with
  | false =>
    simp only [postReports, localCreateReport, ha, Bool.false_eq_true, if_false, if_neg hv] at hp ⊢
    simp only [Resp.okReport.injEq] at hp
    subst hp
    exact ⟨rfl, rfl, rfl⟩
  | true =>
    cases o with
    | none =>
      simp only [postReports, dbCreateReport, insertRemoteReport, ha, if_true, if_neg hv] at hp ⊢
      simp only [Resp.okReport.injEq] at hp
      subst hp
      exact ⟨rfl, rfl, rfl⟩
    | some msg =>
      by_cases hs : isStructuralReportsInsertError msg = true
      · simp only [postReports, dbCreateReport, disableSupabase, localCreateReport, ha, if_true,
          if_neg hv, hs] at hp ⊢
        simp only [Resp.okReport.injEq] at hp
        subst hp
        exact ⟨rfl, rfl, rfl⟩
      · simp only [Bool.not_eq_true] at hs
        simp only [postReports, dbCreateReport, ha, if_true, if_neg hv, hs,
          Bool.false_eq_true, if_false] at hp
        exact absurd hp (by simp)

/-- Closed instance of `createReport_defaults` on a concrete anonymous
submission handled by the local store. -/
theorem createReport_defaults_witness :
    ((postReports ⟨false, [], [], 1, [], [], 0⟩ none 42
        ⟨"", "", "bullying", "desc", "2024-01-01"⟩).2 =
      .okReport (.fromLocal ⟨42, "Anonymous", "", "bullying", "desc", "2024-01-01"⟩)) ∧
    (ReportPayload.fromLocal
        (⟨42, "Anonymous", "", "bullying", "desc", "2024-01-01"⟩ : LocalReport)).name =
      "Anonymous" := by
  refine ⟨by decide, ?_⟩
  have h := createReport_defaults ⟨false, [], [], 1, [], [], 0⟩ none 42 "bullying" "desc"
    "2024-01-01" (by decide) (by decide) (by decide)
    (.fromLocal ⟨42, "Anonymous", "", "bullying", "desc", "2024-01-01"⟩) (by decide)
  exact h.1

/-- C8: the `GET /api/users` response is unchanged under any modification of
the stored password values, remote and local alike — the password is never
part of the projection either backend serves. -/
theorem listUsers_ignores_passwords :
    ∀ (st : St) (fR : RemoteUser → String) (fL : LocalUser → String) (o : Option String),
      (getUsers { st with
          remoteUsers := st.remoteUsers.map (fun u => { u with password := fR u }),
          localUsers := st.localUsers.map (fun u => { u with password := fL u }) } o).2 =
        (getUsers st o).2 := by
  intro st fR fL o
  have hrem : ∀ (l : List RemoteUser),
      (l.map (fun u => { u with password := fR u })).map remoteUserOut = l.map remoteUserOut := by
    intro l
    rw [List.map_map]
    rfl
  have hloc : ∀ (l : List LocalUser),
      (l.map (fun u => { u with password := fL u })).map localUserOut = l.map localUserOut := by
    intro l
    rw [List.map_map]
    rfl
  cases ha : st.supabaseAvailable with
  | false => simp [getUsers, localListUsers, ha, hloc]
  | true =>
    cases o with
    | none => simp [getUsers, tickRemote, ha, List.map_reverse, hrem]
    | some msg => simp [getUsers, localListUsers, tickRemote, ha, hloc]


/-- After the first signup appends its row, the remote lookup for the same
username finds exactly that row. -/
theorem remoteFind_appended {l : List RemoteUser} {row : RemoteUser} {name : String}
    (h : ∀ u, u ∈ l → u.username ≠ name) (hrow : row.username = name) :
    ((l ++ [row]).filter (fun u => u.username == name)).head? = some row := by
  rw [List.filter_append]
  have h1 : l.filter (fun u => u.username == name) = [] :=
    List.filter_eq_nil_iff.mpr (by intro u hu; simp [h u hu])
  rw [h1]
  simp [List.filter, hrow]

/-- C9: within one authoritative store that does not demote between the two
requests, a second signup with an already-taken username is rejected as a
conflict and leaves the stored collection unchanged. The first conjunct is
the remote store (available, no faults), the second the local store. -/
theorem signup_username_unique :
    (∀ (st : St) (now1 now2 : Nat) (req req2 : SignupReq),
      st.supabaseAvailable = true →
      ¬(req.fullName = "" ∨ req.username = "" ∨ req.email = "" ∨ req.accountType = "" ∨
        req.password = "") →
      ¬(req2.fullName = "" ∨ req2.username = "" ∨ req2.email = "" ∨ req2.accountType = "" ∨
        req2.password = "") →
      req2.username = req.username →
      (∀ u, u ∈ st.remoteUsers → u.username ≠ req.username) →
      ∃ (st1 : St) (pu : PublicUser),
        postSignup st none none now1 req = (st1, .okUser pu) ∧
        postSignup st1 none none now2 req2 =
          (tickRemote st1, .conflict "Username already exists") ∧
        (tickRemote st1).remoteUsers = st1.remoteUsers ∧
        (tickRemote st1).localUsers = st1.localUsers) ∧
    (∀ (st : St) (now1 now2 : Nat) (req req2 : SignupReq),
      st.supabaseAvailable = false →
      ¬(req.fullName = "" ∨ req.username = "" ∨ req.email = "" ∨ req.accountType = "" ∨
        req.password = "") →
      ¬(req2.fullName = "" ∨ req2.username = "" ∨ req2.email = "" ∨ req2.accountType = "" ∨
        req2.password = "") →
      req2.username = req.username →
      (∀ u, u ∈ st.localUsers → u.username ≠ req.username) →
      ∃ (st1 : St) (pu : PublicUser),
        postSignup st none none now1 req = (st1, .okUser pu) ∧
        postSignup st1 none none now2 req2 = (st1, .conflict "Username already exists")) := by
  constructor
  · intro st now1 now2 req req2 ha hv1 hv2 hsame hnone
    refine ⟨{ st with
        remoteUsers := st.remoteUsers ++ [⟨st.remoteSeq, req.fullName, req.username, req.email,
          req.accountType, req.password, st.remoteSeq⟩],
        remoteSeq := st.remoteSeq + 1,
        remoteCalls := st.remoteCalls + 1 + 1 },
      ⟨st.remoteSeq, req.username, req.accountType⟩, ?_, ?_, rfl, rfl⟩
    · simp only [postSignup, if_neg hv1, ha, if_true, dbFindUserByUsername,
        remoteFind_none hnone, dbCreateUser, insertRemoteUser, tickRemote, publicOfRemote]
    · have hrow_mem : ∀ u, u ∈ st.remoteUsers → u.username ≠ req2.username := by
        rw [hsame]
        exact hnone
      have hfind := @remoteFind_appended st.remoteUsers
        ⟨st.remoteSeq, req.fullName, req.username, req.email, req.accountType,
          req.password, st.remoteSeq⟩ req2.username hrow_mem (by simp [hsame])
      simp only [postSignup, if_neg hv2, dbFindUserByUsername, ha, if_true, hfind, tickRemote]
  · intro st now1 now2 req req2 ha hv1 hv2 hsame hnone
    have hany : st.localUsers.any (fun u => u.username == req.username) = false := by
      rw [List.any_eq_false]
      intro u hu
      simp [hnone u hu]
    refine ⟨{ st with localUsers := st.localUsers ++ [⟨now1, req.fullName, req.username,
        req.email, req.accountType, req.password⟩] },
      ⟨now1, req.username, req.accountType⟩, ?_, ?_⟩
    · simp only [postSignup, if_neg hv1, ha, Bool.false_eq_true, if_false, localSignup, hany,
        Bool.false_eq_true, if_false, publicOfLocal]
    · simp only [postSignup, if_neg hv2, ha, Bool.false_eq_true, if_false, localSignup]
      rw [if_pos]
      rw [List.any_eq_true]
      exact ⟨⟨now1, req.fullName, req.username, req.email, req.accountType, req.password⟩,
        by simp [hsame], by simp [hsame]⟩

/-- Closed instance of `signup_username_unique` on the local store. -/
theorem signup_username_unique_witness :
    ∃ (st1 : St) (pu : PublicUser),
      postSignup ⟨false, [], [], 1, [], [], 0⟩ none none 41
          ⟨"Ana A", "ana", "a@x", "Student", "pw"⟩ = (st1, .okUser pu) ∧
      postSignup st1 none none 42 ⟨"Ana B", "ana", "b@x", "Admin", "pw2"⟩ =
        (st1, .conflict "Username already exists") :=
  signup_username_unique.2 ⟨false, [], [], 1, [], [], 0⟩ 41 42
    ⟨"Ana A", "ana", "a@x", "Student", "pw"⟩ ⟨"Ana B", "ana", "b@x", "Admin", "pw2"⟩
    (by decide) (by decide) (by decide) (by decide) (by decide)


/-- The head of a filtered list is a member of the original list. -/
theorem head?_filter_mem {l : List RemoteUser} {p : RemoteUser → Bool} {u : RemoteUser}
    (h : (l.filter p).head? = some u) : u ∈ l := by
  rw [List.head?_eq_some_iff] at h
  obtain ⟨ys, hys⟩ := h
  exact List.mem_of_mem_filter (by rw [hys]; exact List.mem_cons_self u ys)

/-- A successful remote insert returns a row of the resulting table. -/
theorem dbCreateUser_mem {st st2 : St} {f : Option String} {u : UserInsert} {row : RemoteUser}
    (h : dbCreateUser st f u = (st2, .ok (some row))) : row ∈ st2.remoteUsers := by
  cases f with
  | some msg =>
    simp only [dbCreateUser] at h
    split_ifs at h <;> simp at h
  | none =>
    simp only [dbCreateUser, insertRemoteUser] at h
    split_ifs at h with ha
    · rw [Prod.mk.injEq] at h
      obtain ⟨h1, h2⟩ := h
      simp only [Except.ok.injEq, Option.some.injEq] at h2
      subst h1
      rw [← h2]
      simp
    · simp at h

/-- A successful remote lookup returns a stored row. -/
theorem dbFindUser_mem {st st1 : St} {f : Option String} {name : String} {u : RemoteUser}
    (h : dbFindUserByUsername st f name = (st1, .ok (some u))) : u ∈ st.remoteUsers := by
  cases f with
  | some msg =>
    simp only [dbFindUserByUsername] at h
    split_ifs at h <;> simp at h
  | none =>
    simp only [dbFindUserByUsername] at h
    split_ifs at h with ha
    · rw [Prod.mk.injEq] at h
      obtain ⟨h1, h2⟩ := h
      simp only [Except.ok.injEq] at h2
      exact head?_filter_mem h2
    · simp at h

/-- The remote lookup never touches the local users collection. -/
theorem dbFindUser_localUsers {st st1 : St} {f : Option String} {name : String}
    {r : Except String (Option RemoteUser)}
    (h : dbFindUserByUsername st f name = (st1, r)) : st1.localUsers = st.localUsers := by
  cases f with
  | some msg =>
    simp only [dbFindUserByUsername, disableSupabase, tickRemote] at h
    split_ifs at h <;> (rw [Prod.mk.injEq] at h; rw [← h.1])
  | none =>
    simp only [dbFindUserByUsername, tickRemote] at h
    split_ifs at h <;> (rw [Prod.mk.injEq] at h; rw [← h.1])

/-- A successful local signup returns the projection of a stored record. -/
theorem localSignup_payload {st st' : St} {now : Nat} {req : SignupReq} {p : PublicUser}
    (h : localSignup st now req = (st', .okUser p)) :
    ∃ u, u ∈ st'.localUsers ∧ p = publicOfLocal u := by
  simp only [localSignup] at h
  split_ifs at h with hdup
  · simp at h
  · rw [Prod.mk.injEq] at h
    obtain ⟨h1, h2⟩ := h
    simp only [Resp.okUser.injEq] at h2
    refine ⟨⟨now, req.fullName, req.username, req.email, req.accountType, req.password⟩,
      ?_, h2.symm⟩
    rw [← h1]
    simp

/-- A successful local login returns the projection of a stored record. -/
theorem localLogin_payload {st st' : St} {req : LoginReq} {p : PublicUser}
    (h : localLogin st req = (st', .okUser p)) :
    ∃ u, u ∈ st.localUsers ∧ p = publicOfLocal u := by
  simp only [localLogin] at h
  cases hf : st.localUsers.find? (fun u => u.username == req.username &&
      u.password == req.password && u.accountType == req.accountType) with
  | none => rw [hf] at h; simp at h
  | some u =>
    rw [hf] at h
    rw [Prod.mk.injEq] at h
    obtain ⟨h1, h2⟩ := h
    simp only [Resp.okUser.injEq] at h2
    exact ⟨u, List.mem_of_find?_eq_some hf, h2.symm⟩

/-- C10: every success payload of signup and of login is
`{ id, username, accountType }` projected from a stored user record, and that
projection is insensitive to the record's email, full name and password — so
the response can never carry them, although all are stored. -/
theorem auth_payload_minimal :
    (∀ (st st' : St) (o1 o2 : Option String) (now : Nat) (req : SignupReq) (p : PublicUser),
      postSignup st o1 o2 now req = (st', .okUser p) →
      (∃ u, u ∈ st'.remoteUsers ∧ p = publicOfRemote u) ∨
      (∃ u, u ∈ st'.localUsers ∧ p = publicOfLocal u)) ∧
    (∀ (st st' : St) (o : Option String) (req : LoginReq) (p : PublicUser),
      postLogin st o req = (st', .okUser p) →
      (∃ u, u ∈ st.remoteUsers ∧ p = publicOfRemote u) ∨
      (∃ u, u ∈ st.localUsers ∧ p = publicOfLocal u)) ∧
    (∀ u v : RemoteUser, u.id = v.id → u.username = v.username →
      u.account_type = v.account_type → publicOfRemote u = publicOfRemote v) ∧
    (∀ u v : LocalUser, u.id = v.id → u.username = v.username →
      u.accountType = v.accountType → publicOfLocal u = publicOfLocal v) := by
  refine ⟨?_, ?_, ?_, ?_⟩
  · intro st st' o1 o2 now req p h
    simp only [postSignup] at h
    split_ifs at h with hv ha
    · simp at h
    · split at h
      · simp at h
      · simp at h
      · rename_i st1 heq1
        split at h
        · simp at h
        · rename_i st2 inserted heq2
          rw [Prod.mk.injEq] at h
          obtain ⟨h1, h2⟩ := h
          simp only [Resp.okUser.injEq] at h2
          subst h1
          exact Or.inl ⟨inserted, dbCreateUser_mem heq2, h2.symm⟩
        · exact Or.inr (localSignup_payload h)
    · exact Or.inr (localSignup_payload h)
  · intro st st' o req p h
    simp only [postLogin] at h
    split_ifs at h with hv ha
    · simp at h
    · split at h
      · simp at h
      · rename_i st1 user heq1
        split_ifs at h with hcred
        · rw [Prod.mk.injEq] at h
          obtain ⟨h1, h2⟩ := h
          simp only [Resp.okUser.injEq] at h2
          exact Or.inl ⟨user, dbFindUser_mem heq1, h2.symm⟩
        · simp at h
      · rename_i st2 heq
        obtain ⟨u, hu, hp⟩ := localLogin_payload h
        rw [dbFindUser_localUsers heq] at hu
        exact Or.inr ⟨u, hu, hp⟩
    · exact Or.inr (localLogin_payload h)
  · intro u v h1 h2 h3
    simp [publicOfRemote, h1, h2, h3]
  · intro u v h1 h2 h3
    simp [publicOfLocal, h1, h2, h3]

/-- Closed instance of `auth_payload_minimal` on a concrete local signup. -/
theorem auth_payload_minimal_witness :
    (∃ u, u ∈ (⟨false, [], [], 1,
        [⟨42, "Ana A", "ana", "a@x", "Student", "pw"⟩], [], 0⟩ : St).remoteUsers ∧
      (⟨42, "ana", "Student"⟩ : PublicUser) = publicOfRemote u) ∨
    (∃ u, u ∈ (⟨false, [], [], 1,
        [⟨42, "Ana A", "ana", "a@x", "Student", "pw"⟩], [], 0⟩ : St).localUsers ∧
      (⟨42, "ana", "Student"⟩ : PublicUser) = publicOfLocal u) :=
  auth_payload_minimal.1 ⟨false, [], [], 1, [], [], 0⟩
    ⟨false, [], [], 1, [⟨42, "Ana A", "ana", "a@x", "Student", "pw"⟩], [], 0⟩
    none none 42 ⟨"Ana A", "ana", "a@x", "Student", "pw"⟩ ⟨42, "ana", "Student"⟩ (by decide)


/-- A demoted process never changes the flag back and never issues another
remote call, whatever the operation. -/
theorem step_unavailable (st : St) (op : Op) (h : st.supabaseAvailable = false) :
    (step st op).1.supabaseAvailable = false ∧ (step st op).1.remoteCalls = st.remoteCalls := by
  cases op with
  | signup o1 o2 now req =>
    simp only [step, postSignup, h, Bool.false_eq_true, if_false, localSignup]
    split_ifs <;> exact ⟨by simp [h], by simp⟩
  | login o req =>
    simp only [step, postLogin, h, Bool.false_eq_true, if_false, localLogin]
    split_ifs
    · exact ⟨by simp [h], by simp⟩
    · cases hf : st.localUsers.find? (fun u => u.username == req.username &&
        u.password == req.password && u.accountType == req.accountType) <;>
        simp [hf, h]
  | createReport o now req =>
    simp only [step, postReports, h, Bool.false_eq_true, if_false, localCreateReport]
    split_ifs <;> exact ⟨by simp [h], by simp⟩
  | listReports o =>
    simp only [step, getReports, h, Bool.false_eq_true, if_false]
    exact ⟨by simp [h], by simp⟩
  | listUsers o =>
    simp only [step, getUsers, h, Bool.false_eq_true, if_false, localListUsers]
    exact ⟨by simp [h], by simp⟩

/-- Propagation of `step_unavailable` along a whole run. -/
theorem run_unavailable (ops : List Op) : ∀ (st : St), st.supabaseAvailable = false →
    (run st ops).supabaseAvailable = false ∧ (run st ops).remoteCalls = st.remoteCalls := by
  induction ops with
  | nil => intro st h; exact ⟨h, rfl⟩
  | cons op ops ih =>
    intro st h
    obtain ⟨h1, h2⟩ := step_unavailable st op h
    obtain ⟨h3, h4⟩ := ih (step st op).1 h1
    rw [run]
    exact ⟨h3, h4.trans h2⟩

/-- C1: the backend-availability flag only ever moves from `true` to `false`
(any step that ends available was already available), and once an operation
has demoted — observed a permanent-failure classification and disabled
Supabase — every subsequent operation of the process leaves the flag down and
issues no remote-adapter call at all, routing to the local store. -/
theorem demotion_is_permanent :
    (∀ (st : St) (op : Op), (step st op).1.supabaseAvailable = true →
      st.supabaseAvailable = true) ∧
    (∀ (st : St) (op : Op) (ops : List Op), (step st op).1.supabaseAvailable = false →
      (run (step st op).1 ops).supabaseAvailable = false ∧
      (run (step st op).1 ops).remoteCalls = (step st op).1.remoteCalls) := by
  constructor
  · intro st op h
    cases hst : st.supabaseAvailable with
    | true => rfl
    | false =>
      have := (step_unavailable st op hst).1
      rw [this] at h
      cases h
  · intro st op ops h
    exact run_unavailable ops _ h

/-- Closed instance of `demotion_is_permanent`: a transient-looking remote
error during `GET /api/users` demotes, and a later report submission plus a
later listing issue no remote call. -/
theorem demotion_is_permanent_witness :
    (step ⟨true, [], [], 1, [], [], 0⟩ (Op.listUsers (some "boom"))).1.supabaseAvailable =
        false ∧
    (run (step ⟨true, [], [], 1, [], [], 0⟩ (Op.listUsers (some "boom"))).1
        [Op.createReport none 5 ⟨"", "", "bullying", "desc", "2024-01-01"⟩,
         Op.listUsers none]).supabaseAvailable = false ∧
    (run (step ⟨true, [], [], 1, [], [], 0⟩ (Op.listUsers (some "boom"))).1
        [Op.createReport none 5 ⟨"", "", "bullying", "desc", "2024-01-01"⟩,
         Op.listUsers none]).remoteCalls =
      (step ⟨true, [], [], 1, [], [], 0⟩ (Op.listUsers (some "boom"))).1.remoteCalls := by
  refine ⟨by decide, ?_⟩
  have h := demotion_is_permanent.2 ⟨true, [], [], 1, [], [], 0⟩ (Op.listUsers (some "boom"))
    [Op.createReport none 5 ⟨"", "", "bullying", "desc", "2024-01-01"⟩, Op.listUsers none]
    (by decide)
  exact h

end SWDSMS
